import Mathlib

/-!
Shallow embedding of the DWB collision-scoring engine
(`src/nav2_dwb_controller/dwb_critics/src/collision_checker.cpp`) and the
collaborators it uses.  World coordinates (C++ `double`) are modelled as real
numbers; costmap cell costs (C++ `unsigned char`) as natural numbers; scores
(C++ `double` built from costs and the literal `0.0`) as rational numbers.
C++ exceptions become an explicit error type `ScoreErr`; undefined behaviour
from out-of-range `std::vector` indexing becomes the non-recoverable
`ScoreErr.fatal` variant.
-/

namespace DwbCollision

/-- 2D pose `geometry_msgs::msg::Pose2D`: world coordinates plus heading. -/
structure Pose2D where
  x : ℝ
  y : ℝ
  theta : ℝ

/-- Footprint vertex `geometry_msgs::msg::Point` (the z coordinate is unused
by the collision checker and omitted). -/
structure Point where
  x : ℝ
  y : ℝ

/-- Modelled from the spec: `nav2_costmap_2d::LETHAL_OBSTACLE`
(`cost_values.hpp` is not under `src/`); the certain-occupation sentinel at
the top of the `unsigned char` cost range, below `NO_INFORMATION`. -/
def LETHAL_OBSTACLE : Nat := 254

/-- Modelled from the spec: `nav2_costmap_2d::NO_INFORMATION`
(`cost_values.hpp` is not under `src/`); the unknown-cell sentinel, the
largest `unsigned char` cost value. -/
def NO_INFORMATION : Nat := 255

/-- Modelled from the spec: `nav2_costmap_2d::transformFootprint`
(`footprint.cpp` is not under `src/`).  Per §4.2 of the design, projecting a
footprint applies the rotation by `theta` and the translation by `(x, y)` to
every vertex, fused into one affine map per vertex as in the source:
`new.x = x + (p.x·cos θ − p.y·sin θ)`, `new.y = y + (p.x·sin θ + p.y·cos θ)`. -/
noncomputable def transformFootprint (x y theta : ℝ) (footprint : List Point) :
    List Point :=
  footprint.map fun p =>
    { x := x + (p.x * Real.cos theta - p.y * Real.sin theta)
      y := y + (p.x * Real.sin theta + p.y * Real.cos theta) }

/-- `CollisionChecker::unorientFootprint`, pure part: with the current robot
pose already resolved, translate by `(-x, -y)` with zero rotation, then rotate
by `-theta` about the origin (two `transformFootprint` calls, as in the
source). -/
noncomputable def unorientFootprint (rp : Pose2D) (oriented : List Point) :
    List Point :=
  transformFootprint 0 0 (-rp.theta)
    (transformFootprint (-rp.x) (-rp.y) 0 oriented)

/-- Spec-side definition (§4.2 wording): translate every vertex by `(x, y)`. -/
def translateFootprint (x y : ℝ) (fp : List Point) : List Point :=
  fp.map fun p => { x := p.x + x, y := p.y + y }

/-- Spec-side definition (§4.2 wording): rotate every vertex by `theta` about
the origin. -/
noncomputable def rotateFootprint (theta : ℝ) (fp : List Point) : List Point :=
  fp.map fun p =>
    { x := p.x * Real.cos theta - p.y * Real.sin theta
      y := p.x * Real.sin theta + p.y * Real.cos theta }

/-- Modelled from the spec: state of `dwb_critics::LineIterator`
(`line_iterator.hpp` is not under `src/`).  The spec (§4.1) describes the
standard dominant-axis integer line traversal: an integer error accumulator
`num` over denominator `den`, incremented by `numadd` per step; the minor
axis steps (`xinc1`/`yinc1`) whenever the accumulator crosses `den`, the
dominant axis steps (`xinc2`/`yinc2`) every iteration. -/
structure LineState where
  x : Int
  y : Int
  num : Nat
  numadd : Nat
  den : Nat
  xinc1 : Int
  yinc1 : Int
  xinc2 : Int
  yinc2 : Int

/-- Modelled from the spec: one `advance` of the line iterator. -/
def lineAdvance (s : LineState) : LineState :=
  let n := s.num + s.numadd
  if s.den ≤ n then
    { s with num := n - s.den, x := s.x + s.xinc1 + s.xinc2,
             y := s.y + s.yinc1 + s.yinc2 }
  else
    { s with num := n, x := s.x + s.xinc2, y := s.y + s.yinc2 }

/-- Cells produced by running the iterator for `n` advances (the C++ loop
runs while `curpixel ≤ numpixels`, i.e. `n + 1` cells for `n = numpixels`). -/
def lineRun : Nat → LineState → List (Int × Int)
  | 0, s => [(s.x, s.y)]
  | n + 1, s => (s.x, s.y) :: lineRun n (lineAdvance s)

/-- Modelled from the spec: the full cell sequence of
`LineIterator(x0, y0, x1, y1)`.  Dominant axis is the larger absolute delta
(ties to x), initial error accumulator `den / 2`, step signs from the
coordinate order, as in the standard Bresenham-family construction §4.1
describes. -/
def lineCells (x0 y0 x1 y1 : Int) : List (Int × Int) :=
  let dx := (x1 - x0).natAbs
  let dy := (y1 - y0).natAbs
  let sx : Int := if x0 ≤ x1 then 1 else -1
  let sy : Int := if y0 ≤ y1 then 1 else -1
  if dy ≤ dx then
    lineRun dx ⟨x0, y0, dx / 2, dy, dx, 0, sy, sx, 0⟩
  else
    lineRun dy ⟨x0, y0, dy / 2, dx, dy, sx, 0, 0, sy⟩

/-- Errors of the collision checker.  `illegalTrajectory` and
`plannerException` are the two recoverable C++ exception kinds
(`nav_core2::IllegalTrajectoryException`, `nav_core2::PlannerException`);
`fatal` models failures that are neither, such as the undefined behaviour of
out-of-range `std::vector` indexing. -/
inductive ScoreErr where
  | illegalTrajectory (msg : String)
  | plannerException (msg : String)
  | fatal (msg : String)
  deriving DecidableEq

/-- Message used for the `fatal` out-of-range model. -/
def oobMsg : String := "footprint index out of range"

/-- Modelled from the spec: a costmap snapshot, specified only at the
boundary (§6): `worldToMap` converts world coordinates to a grid cell and
fails out of bounds; `getCost` returns the cost of a cell. -/
structure Costmap where
  worldToMap : ℝ → ℝ → Option (Nat × Nat)
  getCost : Int → Int → Nat

/-- The collaborators a scoring call consumes: costmap provider, footprint
provider and the robot global-pose lookup, each of which can fail. -/
structure Env where
  costmap : Option Costmap
  footprint : Option (List Point)
  robotPose : Option Pose2D

/-- Unwrap an optional collaborator result or fail with the given error. -/
def getOr : Option α → ScoreErr → Except ScoreErr α
  | some a, _ => .ok a
  | none, e => .error e

/-- `costmap_sub_->getCostmap()` wrapped as in `scorePose`: a
`std::runtime_error` from the subscriber is rethrown as `PlannerException`. -/
def getCostmap (env : Env) : Except ScoreErr Costmap :=
  getOr env.costmap (ScoreErr.plannerException "Costmap not available.")

/-- `worldToMap` on raw world coordinates, failing with an
`IllegalTrajectoryException` carrying `msg`; the unsigned cell coordinates
are widened to `Int` as by the C++ `unsigned int → int` conversions at the
`lineCost` call sites. -/
def w2mXY (cm : Costmap) (x y : ℝ) (msg : String) :
    Except ScoreErr (Int × Int) :=
  match cm.worldToMap x y with
  | some c => .ok ((c.1 : Int), (c.2 : Int))
  | none => .error (ScoreErr.illegalTrajectory msg)

/-- `CollisionChecker::pointCost`: look the cell up, abort on the two
sentinels, otherwise return the raw cost.  (The C++ re-fetches the costmap
from the subscriber; the environment is immutable here, so the snapshot
obtained by `scorePose` is passed through.) -/
def pointCost (cm : Costmap) (x y : Int) : Except ScoreErr Nat :=
  let cost := cm.getCost x y
  if cost = LETHAL_OBSTACLE then
    .error (ScoreErr.illegalTrajectory "Trajectory Hits Obstacle.")
  else if cost = NO_INFORMATION then
    .error (ScoreErr.illegalTrajectory "Trajectory Hits Unknown Region.")
  else
    .ok cost

/-- `CollisionChecker::lineCost`: fold the point costs of the rasterized
cells, keeping the running maximum, starting from `0.0`.  Argument order
`(x0, x1, y0, y1)` as in the source. -/
def lineCost (cm : Costmap) (x0 x1 y0 y1 : Int) : Except ScoreErr ℚ :=
  (lineCells x0 y0 x1 y1).foldlM
    (fun acc c => do
      let pc ← pointCost cm c.1 c.2
      pure (if acc < (pc : ℚ) then (pc : ℚ) else acc))
    0

/-- The edge loop of `scorePose`:
`for (unsigned int i = 0; i < footprint.size() - 1; ++i)`, processing edge
`footprint[i] → footprint[i+1]` each iteration.  `fuel` is the remaining
iteration count; indexing out of range (the C++ undefined behaviour when the
unsigned bound wraps on an empty footprint) is the `fatal` error. -/
def edgeLoopAux (cm : Costmap) (fp : List Point) :
    Nat → Nat → ℚ → Except ScoreErr ℚ
  | _, 0, acc => .ok acc
  | i, fuel + 1, acc => do
    let p ← getOr fp[i]? (ScoreErr.fatal oobMsg)
    let q ← getOr fp[i + 1]? (ScoreErr.fatal oobMsg)
    let c0 ← w2mXY cm p.x p.y "Footprint Goes Off Grid at map."
    let c1 ← w2mXY cm q.x q.y "Footprint Goes Off Grid."
    let lc ← lineCost cm c0.1 c1.1 c0.2 c1.2
    edgeLoopAux cm fp (i + 1) fuel (if lc < acc then acc else lc)

/-- `CollisionChecker::scorePose`.  The unsigned loop bound
`footprint.size() - 1` is computed modulo `2 ^ 64` as by C++ `size_t`
arithmetic; `footprint.back()`/`footprint.front()` are modelled by
`getLast?`/`head?` with `fatal` on the empty list (undefined behaviour in
the source). -/
noncomputable def scorePose (env : Env) (pose : Pose2D) : Except ScoreErr ℚ := do
  let cm ← getCostmap env
  let _cell ← w2mXY cm pose.x pose.y "Trajectory Goes Off Grid."
  let footprint ← getOr env.footprint
    (ScoreErr.plannerException "Footprint not available.")
  let rp ← getOr env.robotPose
    (ScoreErr.plannerException "Robot pose unavailable.")
  let fp := transformFootprint pose.x pose.y pose.theta
    (unorientFootprint rp footprint)
  let acc ← edgeLoopAux cm fp 0 ((fp.length + (2 ^ 64 - 1)) % 2 ^ 64) 0
  let pb ← getOr fp.getLast? (ScoreErr.fatal oobMsg)
  let pf ← getOr fp.head? (ScoreErr.fatal oobMsg)
  let c0 ← w2mXY cm pb.x pb.y "Footprint Goes Off Grid."
  let c1 ← w2mXY cm pf.x pf.y "Footprint Goes Off Grid."
  let lc ← lineCost cm c0.1 c1.1 c0.2 c1.2
  pure (if lc < acc then acc else lc)

/-- `CollisionChecker::isCollisionFree`: negative scores and the two
recoverable exception kinds give `false`; other errors propagate. -/
noncomputable def isCollisionFree (env : Env) (pose : Pose2D) :
    Except ScoreErr Bool :=
  match scorePose env pose with
  | .ok v => if v < 0 then .ok false else .ok true
  | .error (.illegalTrajectory _) => .ok false
  | .error (.plannerException _) => .ok false
  | .error (.fatal m) => .error (.fatal m)

/-! ### Concrete fixtures used by witnesses and counterexamples -/

/-- A costmap whose conversion always lands on cell `(0, 0)` and whose every
cell is free (cost 0). -/
def cmZero : Costmap :=
  { worldToMap := fun _ _ => some (0, 0), getCost := fun _ _ => 0 }

/-- A costmap whose every cell is the lethal sentinel. -/
def cmLethal : Costmap :=
  { worldToMap := fun _ _ => some (0, 0), getCost := fun _ _ => 254 }

/-- A costmap whose every cell is the no-information sentinel. -/
def cmNoInfo : Costmap :=
  { worldToMap := fun _ _ => some (0, 0), getCost := fun _ _ => 255 }

/-- A costmap on which every world-to-grid conversion fails. -/
def cmOffGrid : Costmap :=
  { worldToMap := fun _ _ => none, getCost := fun _ _ => 0 }

/-- The origin pose. -/
def pose0 : Pose2D := ⟨0, 0, 0⟩

/-- The origin footprint vertex. -/
def ptO : Point := ⟨0, 0⟩

/-- Every collaborator available, free costmap, one-vertex footprint. -/
def envFull : Env :=
  { costmap := some cmZero, footprint := some [ptO], robotPose := some pose0 }

/-- Every collaborator available but the footprint is empty. -/
def envEmptyFp : Env :=
  { costmap := some cmZero, footprint := some [], robotPose := some pose0 }

/-- The costmap provider fails. -/
def envNoCm : Env :=
  { costmap := none, footprint := some [ptO], robotPose := some pose0 }

/-- The footprint provider fails. -/
def envNoFp : Env :=
  { costmap := some cmZero, footprint := none, robotPose := some pose0 }

/-- The robot pose lookup fails. -/
def envNoRp : Env :=
  { costmap := some cmZero, footprint := some [ptO], robotPose := none }

/-- Every collaborator available on the all-lethal costmap. -/
def envLethal : Env :=
  { costmap := some cmLethal, footprint := some [ptO], robotPose := some pose0 }

/-- Every collaborator available on the all-unknown costmap. -/
def envNoInfo : Env :=
  { costmap := some cmNoInfo, footprint := some [ptO], robotPose := some pose0 }

/-- Every collaborator available but every conversion fails. -/
def envOffGrid : Env :=
  { costmap := some cmOffGrid, footprint := some [ptO], robotPose := some pose0 }

/-! ### Closed form of the line iterator run -/

/-- Closed form of `lineRun`: starting from error accumulator `num < den`
with per-step increment `add ≤ den`, after `k` advances the iterator sits at
`(x + k·xinc2 + q·xinc1, y + k·yinc2 + q·yinc1)` where
`q = (num + k·add) / den` counts the minor-axis steps so far. -/
theorem lineRun_closed (den add : Nat) (hadd : add ≤ den)
    (a1 b1 a2 b2 : Int) :
    ∀ (n : Nat) (x y : Int) (num : Nat), num < den →
    lineRun n ⟨x, y, num, add, den, a1, b1, a2, b2⟩ =
      (List.range (n + 1)).map (fun (k : Nat) =>
        (x + (k : Int) * a2 + (((num + k * add) / den : Nat) : Int) * a1,
         y + (k : Int) * b2 + (((num + k * add) / den : Nat) : Int) * b1)) := by
  intro n
  induction n with
  | zero =>
    intro x y num hnum
    have h0 : ((num : Int)) / (den : Int) = 0 := by
      rw [← Int.natCast_div, Nat.div_eq_of_lt hnum]; rfl
    rw [show List.range (0 + 1) = [0] from rfl]
    simp [lineRun, h0]
  | succ n ih =>
    intro x y num hnum
    have hden : 0 < den := by omega
    rw [lineRun, List.range_succ_eq_map, List.map_cons, List.map_map]
    unfold lineAdvance
    simp only
    by_cases hc : den ≤ num + add
    · rw [if_pos hc]
      rw [ih (x + a1 + a2) (y + b1 + b2) (num + add - den) (by omega)]
      congr 1
      · simp [Nat.div_eq_of_lt hnum]
      refine List.map_congr_left ?_
      intro k _
      have hq : (num + Nat.succ k * add) / den = (num + add - den + k * add) / den + 1 := by
        have h1 : num + Nat.succ k * add = (num + add - den + k * add) + den := by
          rw [Nat.succ_mul]; omega
        rw [h1, Nat.add_div_right _ hden]
      simp only [Function.comp_apply, hq, Prod.mk.injEq]
      exact ⟨by push_cast; ring, by push_cast; ring⟩
    · rw [if_neg hc]
      rw [ih (x + a2) (y + b2) (num + add) (by omega)]
      congr 1
      · simp [Nat.div_eq_of_lt hnum]
      refine List.map_congr_left ?_
      intro k _
      have hq : num + Nat.succ k * add = num + add + k * add := by
        rw [Nat.succ_mul]; omega
      simp only [Function.comp_apply, hq, Prod.mk.injEq]
      exact ⟨by push_cast; ring, by push_cast; ring⟩

/-- Properties of a cell list of the shape `(range (n+1)).map (fun k => (φ k, ψ k))`:
head and last cell, no duplicates, and componentwise monotonicity from start
to end. -/
theorem map_range_props (n : Nat) (φ ψ : Nat → Int) (X0 Y0 X1 Y1 : Int)
    (hφ0 : φ 0 = X0) (hφn : φ n = X1) (hψ0 : ψ 0 = Y0) (hψn : ψ n = Y1)
    (hinj : Function.Injective fun k => (φ k, ψ k))
    (hmono : ∀ k j : Nat, k ≤ j → j ≤ n →
      (X0 ≤ X1 → φ k ≤ φ j) ∧ (X1 ≤ X0 → φ j ≤ φ k) ∧
      (Y0 ≤ Y1 → ψ k ≤ ψ j) ∧ (Y1 ≤ Y0 → ψ j ≤ ψ k)) :
    ((List.range (n + 1)).map (fun k => (φ k, ψ k))).head? = some (X0, Y0) ∧
    ((List.range (n + 1)).map (fun k => (φ k, ψ k))).getLast? = some (X1, Y1) ∧
    ((List.range (n + 1)).map (fun k => (φ k, ψ k))).Nodup ∧
    List.Pairwise (fun a b =>
      (X0 ≤ X1 → a.1 ≤ b.1) ∧ (X1 ≤ X0 → b.1 ≤ a.1) ∧
      (Y0 ≤ Y1 → a.2 ≤ b.2) ∧ (Y1 ≤ Y0 → b.2 ≤ a.2))
      ((List.range (n + 1)).map (fun k => (φ k, ψ k))) := by
  refine ⟨?_, ?_, ?_, ?_⟩
  · rw [List.head?_map, List.range_succ_eq_map]
    simp [hφ0, hψ0]
  · rw [List.getLast?_map]
    have hr : (List.range (n + 1)).getLast? = some n := by
      rw [List.getLast?_eq_getElem?]
      simp
    rw [hr]
    simp [hφn, hψn]
  · exact List.Nodup.map hinj (List.nodup_range _)
  · rw [List.pairwise_map, List.pairwise_iff_get]
    intro i j hij
    rw [List.get_range, List.get_range]
    have hj : (j : Nat) ≤ n := by
      have := j.isLt
      simp [List.length_range] at this
      omega
    exact hmono i j (by exact_mod_cast le_of_lt hij) hj

/-- Closed form of `lineCells` in the x-dominant branch. -/
theorem lineCells_xdom (x0 y0 x1 y1 : Int)
    (hd : (y1 - y0).natAbs ≤ (x1 - x0).natAbs) :
    lineCells x0 y0 x1 y1 =
      (List.range ((x1 - x0).natAbs + 1)).map (fun (k : Nat) =>
        (x0 + (k : Int) * (if x0 ≤ x1 then 1 else -1),
         y0 + ((((x1 - x0).natAbs / 2 + k * (y1 - y0).natAbs) /
                 (x1 - x0).natAbs : Nat) : Int) *
           (if y0 ≤ y1 then 1 else -1))) := by
  rcases Nat.eq_zero_or_pos (x1 - x0).natAbs with hdx | hdx
  · have hdy : (y1 - y0).natAbs = 0 := by omega
    rw [lineCells]
    simp only [hdx, hdy, le_refl, if_pos]
    rw [show List.range (0 + 1) = [0] from rfl]
    simp [lineRun]
  · rw [lineCells]
    simp only [hd, if_pos]
    rw [lineRun_closed _ _ hd _ _ _ _ _ _ _ _ (Nat.div_lt_self hdx (by norm_num))]
    refine List.map_congr_left ?_
    intro k _
    simp only [Prod.mk.injEq]
    constructor <;> ring

/-- Closed form of `lineCells` in the y-dominant branch. -/
theorem lineCells_ydom (x0 y0 x1 y1 : Int)
    (hd : ¬ (y1 - y0).natAbs ≤ (x1 - x0).natAbs) :
    lineCells x0 y0 x1 y1 =
      (List.range ((y1 - y0).natAbs + 1)).map (fun (k : Nat) =>
        (x0 + ((((y1 - y0).natAbs / 2 + k * (x1 - x0).natAbs) /
                 (y1 - y0).natAbs : Nat) : Int) *
           (if x0 ≤ x1 then 1 else -1),
         y0 + (k : Int) * (if y0 ≤ y1 then 1 else -1))) := by
  have hdy : 0 < (y1 - y0).natAbs := by omega
  rw [lineCells]
  simp only [hd, if_neg, if_false]
  rw [lineRun_closed _ _ (by omega) _ _ _ _ _ _ _ _ (Nat.div_lt_self hdy (by norm_num))]
  refine List.map_congr_left ?_
  intro k _
  simp only [Prod.mk.injEq]
  constructor <;> ring

/-- Auxiliary: a half quotient divided by its own denominator vanishes. -/
theorem half_div_self (d : Nat) : d / 2 / d = 0 := by
  rcases Nat.eq_zero_or_pos d with rfl | h
  · simp
  · exact Nat.div_eq_of_lt (Nat.div_lt_self h (by norm_num))

/-- Auxiliary: integer-cast version of `half_div_self`. -/
theorem half_div_self_int (d : Nat) : ((d : Int)) / 2 / ((d : Int)) = 0 := by
  have h : ((d / 2 / d : Nat) : Int) = 0 := by rw [half_div_self]; rfl
  rw [Int.natCast_div, Int.natCast_div] at h
  exact_mod_cast h

/-- Endpoint, uniqueness and monotonicity properties of `lineCells`: the
trace starts at `(x0, y0)`, ends at `(x1, y1)`, visits no cell twice, and
both coordinates move monotonically in the direction of the segment. -/
theorem lineCells_props (x0 y0 x1 y1 : Int) :
    (lineCells x0 y0 x1 y1).head? = some (x0, y0) ∧
    (lineCells x0 y0 x1 y1).getLast? = some (x1, y1) ∧
    (lineCells x0 y0 x1 y1).Nodup ∧
    List.Pairwise (fun a b =>
      (x0 ≤ x1 → a.1 ≤ b.1) ∧ (x1 ≤ x0 → b.1 ≤ a.1) ∧
      (y0 ≤ y1 → a.2 ≤ b.2) ∧ (y1 ≤ y0 → b.2 ≤ a.2))
      (lineCells x0 y0 x1 y1) := by
  by_cases hd : (y1 - y0).natAbs ≤ (x1 - x0).natAbs
  · rw [lineCells_xdom x0 y0 x1 y1 hd]
    set dx := (x1 - x0).natAbs with hdx_def
    set dy := (y1 - y0).natAbs with hdy_def
    set sx : Int := if x0 ≤ x1 then 1 else -1 with hsx_def
    set sy : Int := if y0 ≤ y1 then 1 else -1 with hsy_def
    have hq0 : (dx / 2 + 0 * dy) / dx = 0 := by
      simpa using half_div_self dx
    have hqn : (dx / 2 + dx * dy) / dx = dy := by
      rcases Nat.eq_zero_or_pos dx with h0 | hpos
      · have : dy = 0 := by omega
        simp [h0, this]
      · rw [Nat.add_comm, Nat.mul_add_div hpos, half_div_self, Nat.add_zero]
    have hsx : sx = 1 ∨ sx = -1 := by
      rw [hsx_def]; split <;> simp
    have hsy : sy = 1 ∨ sy = -1 := by
      rw [hsy_def]; split <;> simp
    refine map_range_props dx _ _ x0 y0 x1 y1 ?_ ?_ ?_ ?_ ?_ ?_
    · simp
    · rcases le_or_lt x0 x1 with hx | hx
      · rw [hsx_def, if_pos hx]; simp; omega
      · rw [hsx_def, if_neg (not_le.2 hx)]; simp; omega
    · show y0 + (((dx / 2 + 0 * dy) / dx : Nat) : Int) * sy = y0
      rw [hq0]; simp
    · rw [hqn]
      rcases le_or_lt y0 y1 with hy | hy
      · rw [hsy_def, if_pos hy]; simp; omega
      · rw [hsy_def, if_neg (not_le.2 hy)]; simp; omega
    · intro a b hab
      simp only [Prod.mk.injEq] at hab
      have h1 := hab.1
      rcases hsx with h | h <;> rw [h] at h1 <;> omega
    · intro k j hkj hjn
      have hdiv : (dx / 2 + k * dy) / dx ≤ (dx / 2 + j * dy) / dx :=
        Nat.div_le_div_right (by
          have : k * dy ≤ j * dy := Nat.mul_le_mul_right dy hkj
          omega)
      set qk := (dx / 2 + k * dy) / dx with hqk_def
      set qj := (dx / 2 + j * dy) / dx with hqj_def
      refine ⟨?_, ?_, ?_, ?_⟩
      · intro hx
        rw [hsx_def, if_pos hx]
        omega
      · intro hx
        by_cases hx' : x0 ≤ x1
        · have : x0 = x1 := le_antisymm hx' hx
          have hdx0 : dx = 0 := by rw [hdx_def, this]; simp
          have : j = 0 := by omega
          have : k = 0 := by omega
          simp_all
        · rw [hsx_def, if_neg hx']
          omega
      · intro hy
        rw [hsy_def, if_pos hy]
        omega
      · intro hy
        by_cases hy' : y0 ≤ y1
        · have : y0 = y1 := le_antisymm hy' hy
          have hdy0 : dy = 0 := by rw [hdy_def, this]; simp
          have hq : qk = qj := by
            rw [hqk_def, hqj_def, hdy0]
            simp
          rw [hq]
        · rw [hsy_def, if_neg hy']
          omega
  · rw [lineCells_ydom x0 y0 x1 y1 hd]
    set dx := (x1 - x0).natAbs with hdx_def
    set dy := (y1 - y0).natAbs with hdy_def
    set sx : Int := if x0 ≤ x1 then 1 else -1 with hsx_def
    set sy : Int := if y0 ≤ y1 then 1 else -1 with hsy_def
    have hdy_pos : 0 < dy := by omega
    have hq0 : (dy / 2 + 0 * dx) / dy = 0 := by
      simpa using half_div_self dy
    have hqn : (dy / 2 + dy * dx) / dy = dx := by
      rw [Nat.add_comm, Nat.mul_add_div hdy_pos, half_div_self, Nat.add_zero]
    have hsx : sx = 1 ∨ sx = -1 := by
      rw [hsx_def]; split <;> simp
    have hsy : sy = 1 ∨ sy = -1 := by
      rw [hsy_def]; split <;> simp
    refine map_range_props dy _ _ x0 y0 x1 y1 ?_ ?_ ?_ ?_ ?_ ?_
    · show x0 + (((dy / 2 + 0 * dx) / dy : Nat) : Int) * sx = x0
      rw [hq0]; simp
    · rw [hqn]
      rcases le_or_lt x0 x1 with hx | hx
      · rw [hsx_def, if_pos hx]; simp; omega
      · rw [hsx_def, if_neg (not_le.2 hx)]; simp; omega
    · simp
    · rcases le_or_lt y0 y1 with hy | hy
      · rw [hsy_def, if_pos hy]; simp; omega
      · rw [hsy_def, if_neg (not_le.2 hy)]; simp; omega
    · intro a b hab
      simp only [Prod.mk.injEq] at hab
      have h2 := hab.2
      rcases hsy with h | h <;> rw [h] at h2 <;> omega
    · intro k j hkj hjn
      have hdiv : (dy / 2 + k * dx) / dy ≤ (dy / 2 + j * dx) / dy :=
        Nat.div_le_div_right (by
          have : k * dx ≤ j * dx := Nat.mul_le_mul_right dx hkj
          omega)
      set qk := (dy / 2 + k * dx) / dy with hqk_def
      set qj := (dy / 2 + j * dx) / dy with hqj_def
      refine ⟨?_, ?_, ?_, ?_⟩
      · intro hx
        rw [hsx_def, if_pos hx]
        omega
      · intro hx
        by_cases hx' : x0 ≤ x1
        · have : x0 = x1 := le_antisymm hx' hx
          have hdx0 : dx = 0 := by rw [hdx_def, this]; simp
          have hq : qk = qj := by
            rw [hqk_def, hqj_def, hdx0]
            simp
          rw [hq]
        · rw [hsx_def, if_neg hx']
          omega
      · intro hy
        rw [hsy_def, if_pos hy]
        omega
      · intro hy
        by_cases hy' : y0 ≤ y1
        · have : y0 = y1 := le_antisymm hy' hy
          have hdy0 : dy = 0 := by rw [hdy_def, this]; simp
          omega
        · rw [hsy_def, if_neg hy']
          omega

/-! ### Spec-side description of the boundary maximum (for the refinement
claim about `scorePose`'s return value) -/

/-- Maximum of a list of rationals, `none` on the empty list. -/
def qmax : List ℚ → Option ℚ
  | [] => none
  | a :: l => some (l.foldl max a)

/-- Spec-side: the point cost of a grid cell, as a score value. -/
def specCellCost (cm : Costmap) (c : Int × Int) : ℚ :=
  (cm.getCost c.1 c.2 : ℚ)

/-- Spec-side: the grid cells visited when rasterizing one boundary edge,
`none` if either endpoint fails world-to-grid conversion. -/
def specEdgeCells (cm : Costmap) (e : Point × Point) :
    Option (List (Int × Int)) := do
  let a ← cm.worldToMap e.1.x e.1.y
  let b ← cm.worldToMap e.2.x e.2.y
  pure (lineCells (a.1 : Int) (a.2 : Int) (b.1 : Int) (b.2 : Int))

/-- Spec-side: the maximum point cost over all grid cells visited when
rasterizing one boundary edge. -/
def specEdgeMax (cm : Costmap) (e : Point × Point) : Option ℚ :=
  (specEdgeCells cm e).bind fun cells => qmax (cells.map (specCellCost cm))

/-- Spec-side: the boundary edges of a footprint — `vertex[i] → vertex[i+1]`
for every `i`, plus the closing edge from the last vertex to the first. -/
def boundaryEdges (fp : List Point) : List (Point × Point) :=
  fp.zip fp.tail ++
    (match fp.getLast?, fp.head? with
     | some l, some h => [(l, h)]
     | _, _ => [])

/-- Spec-side: the maximum edge cost over all boundary edges. -/
def specBoundaryMax (cm : Costmap) (fp : List Point) : Option ℚ := do
  let ms ← (boundaryEdges fp).mapM (specEdgeMax cm)
  qmax ms

/-! ### Properties of `pointCost` and `lineCost` -/

/-- The conditional update of `lineCost` is a binary maximum. -/
theorem if_lt_max (a b : ℚ) : (if a < b then b else a) = max a b := by
  rcases le_total a b with h | h
  · rcases eq_or_lt_of_le h with rfl | h'
    · simp
    · simp [h', max_eq_right h]
  · simp [not_lt.2 h, max_eq_left h]

/-- `pointCost` succeeds on a non-sentinel cell with the raw cost. -/
theorem pointCost_eq_ok (cm : Costmap) (x y : Int)
    (h1 : cm.getCost x y ≠ LETHAL_OBSTACLE)
    (h2 : cm.getCost x y ≠ NO_INFORMATION) :
    pointCost cm x y = .ok (cm.getCost x y) := by
  unfold pointCost
  rw [if_neg h1, if_neg h2]

/-- `pointCost` aborts with the obstacle message on a lethal cell. -/
theorem pointCost_lethal (cm : Costmap) (x y : Int)
    (h : cm.getCost x y = LETHAL_OBSTACLE) :
    pointCost cm x y = .error (ScoreErr.illegalTrajectory "Trajectory Hits Obstacle.") := by
  unfold pointCost
  rw [if_pos h]

/-- `pointCost` aborts with the unknown-region message on a no-information
cell. -/
theorem pointCost_noinfo (cm : Costmap) (x y : Int)
    (h : cm.getCost x y = NO_INFORMATION) :
    pointCost cm x y = .error (ScoreErr.illegalTrajectory "Trajectory Hits Unknown Region.") := by
  unfold pointCost
  have h1 : cm.getCost x y ≠ LETHAL_OBSTACLE := by
    rw [h]; decide
  rw [if_neg h1, if_pos h]

/-- The cost fold of `lineCost` succeeds on a sentinel-free cell list and
computes the running maximum of the point costs. -/
theorem costFold_ok (cm : Costmap) :
    ∀ (l : List (Int × Int)) (acc : ℚ),
    (∀ c ∈ l, cm.getCost c.1 c.2 ≠ LETHAL_OBSTACLE ∧
       cm.getCost c.1 c.2 ≠ NO_INFORMATION) →
    (l.foldlM (fun acc c => do
        let pc ← pointCost cm c.1 c.2
        pure (if acc < (pc : ℚ) then (pc : ℚ) else acc)) acc)
      = .ok (l.foldl (fun a c => max a (specCellCost cm c)) acc) := by
  intro l
  induction l with
  | nil => intro acc _; rfl
  | cons c l ih =>
    intro acc h
    rw [List.foldlM_cons, List.foldl_cons]
    rw [pointCost_eq_ok cm c.1 c.2 (h c (by simp)).1 (h c (by simp)).2]
    show (l.foldlM _ (if acc < ((cm.getCost c.1 c.2 : Nat) : ℚ) then _ else acc)) = _
    rw [if_lt_max]
    exact ih (max acc (specCellCost cm c)) (fun d hd => h d (by simp [hd]))

/-- If the cost fold fails, the failure is an `IllegalTrajectoryException`
with one of the two sentinel messages. -/
theorem costFold_err (cm : Costmap) :
    ∀ (l : List (Int × Int)) (acc : ℚ) (e : ScoreErr),
    (l.foldlM (fun acc c => do
        let pc ← pointCost cm c.1 c.2
        pure (if acc < (pc : ℚ) then (pc : ℚ) else acc)) acc)
      = .error e →
    e = ScoreErr.illegalTrajectory "Trajectory Hits Obstacle." ∨
    e = ScoreErr.illegalTrajectory "Trajectory Hits Unknown Region." := by
  intro l
  induction l with
  | nil =>
    intro acc e h
    rw [List.foldlM_nil] at h
    exact absurd h (by simp [pure, Except.pure])
  | cons c l ih =>
    intro acc e h
    rw [List.foldlM_cons] at h
    by_cases h1 : cm.getCost c.1 c.2 = LETHAL_OBSTACLE
    · rw [pointCost_lethal cm c.1 c.2 h1] at h
      have h' : (Except.error (ScoreErr.illegalTrajectory "Trajectory Hits Obstacle.") :
          Except ScoreErr ℚ) = Except.error e := h
      injection h' with h''
      exact Or.inl h''.symm
    by_cases h2 : cm.getCost c.1 c.2 = NO_INFORMATION
    · rw [pointCost_noinfo cm c.1 c.2 h2] at h
      have h' : (Except.error (ScoreErr.illegalTrajectory "Trajectory Hits Unknown Region.") :
          Except ScoreErr ℚ) = Except.error e := h
      injection h' with h''
      exact Or.inr h''.symm
    · rw [pointCost_eq_ok cm c.1 c.2 h1 h2] at h
      exact ih _ e h

/-- If the cost fold succeeds, no visited cell was a sentinel and the value
is the running maximum. -/
theorem costFold_ok_inv (cm : Costmap) :
    ∀ (l : List (Int × Int)) (acc v : ℚ),
    (l.foldlM (fun acc c => do
        let pc ← pointCost cm c.1 c.2
        pure (if acc < (pc : ℚ) then (pc : ℚ) else acc)) acc)
      = .ok v →
    (∀ c ∈ l, cm.getCost c.1 c.2 ≠ LETHAL_OBSTACLE ∧
       cm.getCost c.1 c.2 ≠ NO_INFORMATION) ∧
    v = l.foldl (fun a c => max a (specCellCost cm c)) acc := by
  intro l
  induction l with
  | nil =>
    intro acc v h
    rw [List.foldlM_nil] at h
    have h' : (Except.ok acc : Except ScoreErr ℚ) = Except.ok v := h
    injection h' with h''
    exact ⟨by simp, by simp [h'']⟩
  | cons c l ih =>
    intro acc v h
    rw [List.foldlM_cons] at h
    by_cases h1 : cm.getCost c.1 c.2 = LETHAL_OBSTACLE
    · rw [pointCost_lethal cm c.1 c.2 h1] at h
      have h' : (Except.error (ScoreErr.illegalTrajectory "Trajectory Hits Obstacle.") :
          Except ScoreErr ℚ) = Except.ok v := h
      exact absurd h' (by simp)
    by_cases h2 : cm.getCost c.1 c.2 = NO_INFORMATION
    · rw [pointCost_noinfo cm c.1 c.2 h2] at h
      have h' : (Except.error (ScoreErr.illegalTrajectory "Trajectory Hits Unknown Region.") :
          Except ScoreErr ℚ) = Except.ok v := h
      exact absurd h' (by simp)
    · rw [pointCost_eq_ok cm c.1 c.2 h1 h2] at h
      have h' : (l.foldlM (fun acc c => do
          let pc ← pointCost cm c.1 c.2
          pure (if acc < (pc : ℚ) then (pc : ℚ) else acc))
          (if acc < ((cm.getCost c.1 c.2 : Nat) : ℚ)
            then ((cm.getCost c.1 c.2 : Nat) : ℚ) else acc)) = .ok v := h
      rw [if_lt_max] at h'
      obtain ⟨hall, hv⟩ := ih _ v h'
      refine ⟨?_, ?_⟩
      · intro d hd
        rcases List.mem_cons.1 hd with rfl | hd'
        · exact ⟨h1, h2⟩
        · exact hall d hd'
      · rw [List.foldl_cons]
        exact hv

/-- A max-fold never drops below its accumulator. -/
theorem foldl_max_ge {α : Type} (g : α → ℚ) :
    ∀ (l : List α) (acc : ℚ), acc ≤ l.foldl (fun a c => max a (g c)) acc := by
  intro l
  induction l with
  | nil => intro acc; simp
  | cons c l ih =>
    intro acc
    rw [List.foldl_cons]
    exact le_trans (le_max_left acc (g c)) (ih (max acc (g c)))

/-- A max-fold stays below any bound dominating the accumulator and all
elements. -/
theorem foldl_max_le {α : Type} (g : α → ℚ) (B : ℚ) :
    ∀ (l : List α) (acc : ℚ), acc ≤ B → (∀ c ∈ l, g c ≤ B) →
    l.foldl (fun a c => max a (g c)) acc ≤ B := by
  intro l
  induction l with
  | nil => intro acc h _; simpa using h
  | cons c l ih =>
    intro acc hacc h
    rw [List.foldl_cons]
    exact ih (max acc (g c)) (max_le hacc (h c (by simp)))
      (fun d hd => h d (by simp [hd]))

/-- On a nonempty list of nonnegative values, `qmax` is the zero-based
max-fold. -/
theorem qmax_eq_foldl (l : List ℚ) (hne : l ≠ [])
    (h0 : ∀ x ∈ l, 0 ≤ x) :
    qmax l = some (l.foldl max 0) := by
  cases l with
  | nil => exact absurd rfl hne
  | cons a l =>
    show some (l.foldl max a) = some ((a :: l).foldl max 0)
    rw [List.foldl_cons, max_eq_right (h0 a (by simp))]

/-- `qmax` after appending one nonnegative element to a list of nonnegative
elements. -/
theorem qmax_append_singleton (l : List ℚ) (b : ℚ)
    (h0 : ∀ x ∈ l, 0 ≤ x) (hb : 0 ≤ b) :
    qmax (l ++ [b]) = some (max b (l.foldl max 0)) := by
  cases l with
  | nil =>
    show some b = some (max b 0)
    rw [max_eq_left hb]
  | cons a l =>
    show some ((l ++ [b]).foldl max a) = some (max b ((a :: l).foldl max 0))
    rw [List.foldl_append]
    simp only [List.foldl_cons, List.foldl_nil]
    rw [max_eq_right (h0 a (by simp)), max_comm]

/-- `lineRun` always produces at least one cell. -/
theorem lineRun_ne_nil (n : Nat) (s : LineState) : lineRun n s ≠ [] := by
  cases n <;> simp [lineRun]

/-- The rasterized cell list of an edge is never empty. -/
theorem lineCells_ne_nil (x0 y0 x1 y1 : Int) : lineCells x0 y0 x1 y1 ≠ [] := by
  simp only [lineCells]
  split <;> exact lineRun_ne_nil _ _

/-- A successful `lineCost` call reports the spec-side edge maximum: the
visited cells are sentinel-free and the value is the zero-based maximum of
their point costs. -/
theorem lineCost_ok_inv (cm : Costmap) (x0 x1 y0 y1 : Int) (v : ℚ)
    (h : lineCost cm x0 x1 y0 y1 = .ok v) :
    (∀ c ∈ lineCells x0 y0 x1 y1, cm.getCost c.1 c.2 ≠ LETHAL_OBSTACLE ∧
       cm.getCost c.1 c.2 ≠ NO_INFORMATION) ∧
    qmax ((lineCells x0 y0 x1 y1).map (specCellCost cm)) = some v ∧
    0 ≤ v := by
  unfold lineCost at h
  obtain ⟨hall, hv⟩ := costFold_ok_inv cm (lineCells x0 y0 x1 y1) 0 v h
  have h0 : ∀ x ∈ (lineCells x0 y0 x1 y1).map (specCellCost cm), (0 : ℚ) ≤ x := by
    intro x hx
    obtain ⟨c, _, rfl⟩ := List.mem_map.1 hx
    exact Nat.cast_nonneg _
  refine ⟨hall, ?_, ?_⟩
  · rw [qmax_eq_foldl _ (by simp [lineCells_ne_nil]) h0, List.foldl_map]
    rw [hv]
  · rw [hv]
    exact foldl_max_ge (specCellCost cm) _ 0

/-- A failing `lineCost` call fails with one of the two sentinel
`IllegalTrajectoryException` messages. -/
theorem lineCost_err (cm : Costmap) (x0 x1 y0 y1 : Int) (e : ScoreErr)
    (h : lineCost cm x0 x1 y0 y1 = .error e) :
    e = ScoreErr.illegalTrajectory "Trajectory Hits Obstacle." ∨
    e = ScoreErr.illegalTrajectory "Trajectory Hits Unknown Region." := by
  unfold lineCost at h
  exact costFold_err cm _ 0 e h

/-- With all raw costs below 256 (the `unsigned char` range), a successful
`lineCost` stays strictly below the lethal sentinel. -/
theorem lineCost_ok_lt (cm : Costmap) (x0 x1 y0 y1 : Int) (v : ℚ)
    (hc : ∀ a b : Int, cm.getCost a b < 256)
    (h : lineCost cm x0 x1 y0 y1 = .ok v) :
    v ≤ 253 := by
  unfold lineCost at h
  obtain ⟨hall, hv⟩ := costFold_ok_inv cm (lineCells x0 y0 x1 y1) 0 v h
  rw [hv]
  refine foldl_max_le (specCellCost cm) 253 _ 0 (by norm_num) ?_
  intro c hcmem
  obtain ⟨h1, h2⟩ := hall c hcmem
  have hlt := hc c.1 c.2
  have : cm.getCost c.1 c.2 ≤ 253 := by
    simp only [LETHAL_OBSTACLE] at h1
    simp only [NO_INFORMATION] at h2
    omega
  unfold specCellCost
  exact_mod_cast this

/-! ### Reduction helpers for the `Except` pipeline -/

theorem getOr_some {α : Type} (a : α) (e : ScoreErr) :
    getOr (some a) e = .ok a := rfl

theorem getOr_none {α : Type} (e : ScoreErr) :
    getOr (none : Option α) e = .error e := rfl

theorem ok_bind {α β : Type} (a : α) (f : α → Except ScoreErr β) :
    (Except.ok a : Except ScoreErr α) >>= f = f a := rfl

theorem error_bind {α β : Type} (e : ScoreErr) (f : α → Except ScoreErr β) :
    (Except.error e : Except ScoreErr α) >>= f = .error e := rfl

theorem w2mXY_some (cm : Costmap) (x y : ℝ) (msg : String) (c : Nat × Nat)
    (h : cm.worldToMap x y = some c) :
    w2mXY cm x y msg = .ok ((c.1 : Int), (c.2 : Int)) := by
  unfold w2mXY
  rw [h]

theorem w2mXY_none (cm : Costmap) (x y : ℝ) (msg : String)
    (h : cm.worldToMap x y = none) :
    w2mXY cm x y msg = .error (ScoreErr.illegalTrajectory msg) := by
  unfold w2mXY
  rw [h]

/-! ### The edge loop -/

/-- Fuel arithmetic of the C++ unsigned loop bound: for a footprint that is
nonempty, the wrapped bound `(n + 2^64 - 1) % 2^64` never reaches the
footprint length. -/
theorem loopFuel_lt (n : Nat) (hn : n ≠ 0) :
    (n + (2 ^ 64 - 1)) % 2 ^ 64 < n := by
  rcases Nat.lt_or_ge n (2 ^ 64) with h | h
  · have : (n + (2 ^ 64 - 1)) % 2 ^ 64 = n - 1 := by omega
    omega
  · have : (n + (2 ^ 64 - 1)) % 2 ^ 64 < 2 ^ 64 := Nat.mod_lt _ (by norm_num)
    omega

/-- For C++-representable sizes `1 ≤ n < 2^64` the wrapped bound is `n - 1`,
the number of consecutive-vertex edges. -/
theorem loopFuel_eq (n : Nat) (h1 : 1 ≤ n) (h2 : n < 2 ^ 64) :
    (n + (2 ^ 64 - 1)) % 2 ^ 64 = n - 1 := by omega

/-- A successful run of the edge loop never lowers the accumulator. -/
theorem edgeLoopAux_ok_ge (cm : Costmap) (fp : List Point) :
    ∀ (fuel i : Nat) (acc r : ℚ),
    edgeLoopAux cm fp i fuel acc = .ok r → acc ≤ r := by
  intro fuel
  induction fuel with
  | zero =>
    intro i acc r h
    have h' : (Except.ok acc : Except ScoreErr ℚ) = .ok r := h
    injection h' with h''
    exact le_of_eq h''
  | succ fuel ih =>
    intro i acc r h
    rw [edgeLoopAux] at h
    cases hp : fp[i]? with
    | none => rw [hp, getOr_none, error_bind] at h; exact absurd h (by simp)
    | some p =>
    rw [hp, getOr_some, ok_bind] at h
    cases hq : fp[i + 1]? with
    | none => rw [hq, getOr_none, error_bind] at h; exact absurd h (by simp)
    | some q =>
    rw [hq, getOr_some, ok_bind] at h
    cases hw0 : cm.worldToMap p.x p.y with
    | none =>
      rw [w2mXY_none cm p.x p.y _ hw0, error_bind] at h
      exact absurd h (by simp)
    | some a =>
    rw [w2mXY_some cm p.x p.y _ a hw0, ok_bind] at h
    cases hw1 : cm.worldToMap q.x q.y with
    | none =>
      rw [w2mXY_none cm q.x q.y _ hw1, error_bind] at h
      exact absurd h (by simp)
    | some b =>
    rw [w2mXY_some cm q.x q.y _ b hw1, ok_bind] at h
    cases hlc : lineCost cm (a.1 : Int) (b.1 : Int) (a.2 : Int) (b.2 : Int) with
    | error e =>
      rw [hlc, error_bind] at h
      exact absurd h (by simp)
    | ok lc =>
    rw [hlc, ok_bind] at h
    have h' : edgeLoopAux cm fp (i + 1) fuel (if lc < acc then acc else lc) = .ok r := h
    rw [if_lt_max] at h'
    exact le_trans (le_max_right lc acc) (ih (i + 1) (max lc acc) r h')

/-- With the `unsigned char` bound on raw costs, a successful edge loop run
keeps the accumulator at most 253 if it starts there. -/
theorem edgeLoopAux_ok_le (cm : Costmap) (fp : List Point)
    (hc : ∀ a b : Int, cm.getCost a b < 256) :
    ∀ (fuel i : Nat) (acc r : ℚ), acc ≤ 253 →
    edgeLoopAux cm fp i fuel acc = .ok r → r ≤ 253 := by
  intro fuel
  induction fuel with
  | zero =>
    intro i acc r hacc h
    have h' : (Except.ok acc : Except ScoreErr ℚ) = .ok r := h
    injection h' with h''
    exact h'' ▸ hacc
  | succ fuel ih =>
    intro i acc r hacc h
    rw [edgeLoopAux] at h
    cases hp : fp[i]? with
    | none => rw [hp, getOr_none, error_bind] at h; exact absurd h (by simp)
    | some p =>
    rw [hp, getOr_some, ok_bind] at h
    cases hq : fp[i + 1]? with
    | none => rw [hq, getOr_none, error_bind] at h; exact absurd h (by simp)
    | some q =>
    rw [hq, getOr_some, ok_bind] at h
    cases hw0 : cm.worldToMap p.x p.y with
    | none =>
      rw [w2mXY_none cm p.x p.y _ hw0, error_bind] at h
      exact absurd h (by simp)
    | some a =>
    rw [w2mXY_some cm p.x p.y _ a hw0, ok_bind] at h
    cases hw1 : cm.worldToMap q.x q.y with
    | none =>
      rw [w2mXY_none cm q.x q.y _ hw1, error_bind] at h
      exact absurd h (by simp)
    | some b =>
    rw [w2mXY_some cm q.x q.y _ b hw1, ok_bind] at h
    cases hlc : lineCost cm (a.1 : Int) (b.1 : Int) (a.2 : Int) (b.2 : Int) with
    | error e =>
      rw [hlc, error_bind] at h
      exact absurd h (by simp)
    | ok lc =>
    rw [hlc, ok_bind] at h
    have h' : edgeLoopAux cm fp (i + 1) fuel (if lc < acc then acc else lc) = .ok r := h
    rw [if_lt_max] at h'
    exact ih (i + 1) (max lc acc) r
      (max_le (lineCost_ok_lt cm _ _ _ _ lc hc hlc) hacc) h'

/-- Failures of the edge loop are the out-of-range model or an
`IllegalTrajectoryException` with one of the four loop messages. -/
theorem edgeLoopAux_err (cm : Costmap) (fp : List Point) :
    ∀ (fuel i : Nat) (acc : ℚ) (e : ScoreErr),
    edgeLoopAux cm fp i fuel acc = .error e →
    e = ScoreErr.fatal oobMsg ∨
    (e = ScoreErr.illegalTrajectory "Footprint Goes Off Grid at map." ∨
     e = ScoreErr.illegalTrajectory "Footprint Goes Off Grid." ∨
     e = ScoreErr.illegalTrajectory "Trajectory Hits Obstacle." ∨
     e = ScoreErr.illegalTrajectory "Trajectory Hits Unknown Region.") := by
  intro fuel
  induction fuel with
  | zero =>
    intro i acc e h
    have h' : (Except.ok acc : Except ScoreErr ℚ) = .error e := h
    exact absurd h' (by simp)
  | succ fuel ih =>
    intro i acc e h
    rw [edgeLoopAux] at h
    cases hp : fp[i]? with
    | none =>
      rw [hp, getOr_none, error_bind] at h
      injection h with h'
      exact Or.inl h'.symm
    | some p =>
    rw [hp, getOr_some, ok_bind] at h
    cases hq : fp[i + 1]? with
    | none =>
      rw [hq, getOr_none, error_bind] at h
      injection h with h'
      exact Or.inl h'.symm
    | some q =>
    rw [hq, getOr_some, ok_bind] at h
    cases hw0 : cm.worldToMap p.x p.y with
    | none =>
      rw [w2mXY_none cm p.x p.y _ hw0, error_bind] at h
      injection h with h'
      exact Or.inr (Or.inl h'.symm)
    | some a =>
    rw [w2mXY_some cm p.x p.y _ a hw0, ok_bind] at h
    cases hw1 : cm.worldToMap q.x q.y with
    | none =>
      rw [w2mXY_none cm q.x q.y _ hw1, error_bind] at h
      injection h with h'
      exact Or.inr (Or.inr (Or.inl h'.symm))
    | some b =>
    rw [w2mXY_some cm q.x q.y _ b hw1, ok_bind] at h
    cases hlc : lineCost cm (a.1 : Int) (b.1 : Int) (a.2 : Int) (b.2 : Int) with
    | error e' =>
      rw [hlc, error_bind] at h
      injection h with h'
      rcases lineCost_err cm _ _ _ _ e' hlc with h2 | h2
      · exact Or.inr (Or.inr (Or.inr (Or.inl (h'.symm.trans h2))))
      · exact Or.inr (Or.inr (Or.inr (Or.inr (h'.symm.trans h2))))
    | ok lc =>
    rw [hlc, ok_bind] at h
    exact ih (i + 1) _ e h

/-- The out-of-range failure needs the loop window to reach past the end of
the footprint. -/
theorem edgeLoopAux_fatal_le (cm : Costmap) (fp : List Point) :
    ∀ (fuel i : Nat) (acc : ℚ) (m : String),
    edgeLoopAux cm fp i fuel acc = .error (.fatal m) →
    fp.length ≤ i + fuel := by
  intro fuel
  induction fuel with
  | zero =>
    intro i acc m h
    have h' : (Except.ok acc : Except ScoreErr ℚ) = .error (.fatal m) := h
    exact absurd h' (by simp)
  | succ fuel ih =>
    intro i acc m h
    rw [edgeLoopAux] at h
    cases hp : fp[i]? with
    | none =>
      have := List.getElem?_eq_none_iff.1 hp
      omega
    | some p =>
    rw [hp, getOr_some, ok_bind] at h
    cases hq : fp[i + 1]? with
    | none =>
      have := List.getElem?_eq_none_iff.1 hq
      omega
    | some q =>
    rw [hq, getOr_some, ok_bind] at h
    cases hw0 : cm.worldToMap p.x p.y with
    | none =>
      rw [w2mXY_none cm p.x p.y _ hw0, error_bind] at h
      injection h with h'
      exact absurd h'.symm (by simp)
    | some a =>
    rw [w2mXY_some cm p.x p.y _ a hw0, ok_bind] at h
    cases hw1 : cm.worldToMap q.x q.y with
    | none =>
      rw [w2mXY_none cm q.x q.y _ hw1, error_bind] at h
      injection h with h'
      exact absurd h'.symm (by simp)
    | some b =>
    rw [w2mXY_some cm q.x q.y _ b hw1, ok_bind] at h
    cases hlc : lineCost cm (a.1 : Int) (b.1 : Int) (a.2 : Int) (b.2 : Int) with
    | error e' =>
      rw [hlc, error_bind] at h
      injection h with h'
      rcases lineCost_err cm _ _ _ _ e' hlc with h2 | h2 <;>
        · rw [h2] at h'
          exact absurd h'.symm (by simp)
    | ok lc =>
    rw [hlc, ok_bind] at h
    have := ih (i + 1) _ m h
    omega

/-- On the empty footprint the loop immediately reports the out-of-range
failure (the C++ unsigned bound wraps and `footprint[0]` is indexed out of
range). -/
theorem edgeLoopAux_nil_fatal (cm : Costmap) :
    ∀ (fuel : Nat), 0 < fuel → ∀ (i : Nat) (acc : ℚ),
    edgeLoopAux cm ([] : List Point) i fuel acc = .error (.fatal oobMsg) := by
  intro fuel hfuel i acc
  cases fuel with
  | zero => omega
  | succ fuel =>
    rw [edgeLoopAux]
    rfl

/-- A successful edge loop computes the max-fold of the spec-side edge
maxima of the processed vertex pairs, and all those maxima are defined and
nonnegative. -/
theorem edgeLoopAux_ok_spec (cm : Costmap) (fp : List Point) :
    ∀ (es : List (Point × Point)) (i : Nat) (acc r : ℚ),
    (∀ k, k < es.length → ∃ p q, fp[i + k]? = some p ∧ fp[i + k + 1]? = some q ∧
       es[k]? = some (p, q)) →
    edgeLoopAux cm fp i es.length acc = .ok r →
    ∃ ms : List ℚ, es.mapM (specEdgeMax cm) = some ms ∧
      (∀ m ∈ ms, 0 ≤ m) ∧ r = ms.foldl max acc := by
  intro es
  induction es with
  | nil =>
    intro i acc r _ h
    have h' : (Except.ok acc : Except ScoreErr ℚ) = .ok r := h
    injection h' with h''
    exact ⟨[], rfl, by simp, by simp [h'']⟩
  | cons e es ih =>
    intro i acc r hview h
    obtain ⟨p, q, hp, hq, he⟩ := hview 0 (by simp)
    rw [Nat.add_zero] at hp hq
    have he' : e = (p, q) := by
      simpa using he
    rw [show (e :: es).length = es.length + 1 from rfl, edgeLoopAux] at h
    rw [hp, getOr_some, ok_bind, hq, getOr_some, ok_bind] at h
    cases hw0 : cm.worldToMap p.x p.y with
    | none =>
      rw [w2mXY_none cm p.x p.y _ hw0, error_bind] at h
      exact absurd h (by simp)
    | some a =>
    rw [w2mXY_some cm p.x p.y _ a hw0, ok_bind] at h
    cases hw1 : cm.worldToMap q.x q.y with
    | none =>
      rw [w2mXY_none cm q.x q.y _ hw1, error_bind] at h
      exact absurd h (by simp)
    | some b =>
    rw [w2mXY_some cm q.x q.y _ b hw1, ok_bind] at h
    cases hlc : lineCost cm (a.1 : Int) (b.1 : Int) (a.2 : Int) (b.2 : Int) with
    | error e' =>
      rw [hlc, error_bind] at h
      exact absurd h (by simp)
    | ok lc =>
    rw [hlc, ok_bind] at h
    have h' : edgeLoopAux cm fp (i + 1) es.length (if lc < acc then acc else lc) = .ok r := h
    rw [if_lt_max] at h'
    have hview' : ∀ k, k < es.length → ∃ p' q',
        fp[i + 1 + k]? = some p' ∧ fp[i + 1 + k + 1]? = some q' ∧
        es[k]? = some (p', q') := by
      intro k hk
      obtain ⟨p', q', hp', hq', he2⟩ := hview (k + 1) (by simp; omega)
      have e1 : i + (k + 1) = i + 1 + k := by omega
      have e2 : i + (k + 1) + 1 = i + 1 + k + 1 := by omega
      rw [e1] at hp'
      rw [e2] at hq'
      rw [List.getElem?_cons_succ] at he2
      exact ⟨p', q', hp', hq', he2⟩
    obtain ⟨ms, hms, hms0, hr⟩ := ih (i + 1) (max lc acc) r hview' h'
    obtain ⟨hcells, hqmax, hlc0⟩ := lineCost_ok_inv cm _ _ _ _ lc hlc
    have hedge : specEdgeMax cm e = some lc := by
      rw [he']
      unfold specEdgeMax specEdgeCells
      simp only [hw0, hw1, Option.some_bind, Option.bind_eq_bind]
      exact hqmax
    refine ⟨lc :: ms, ?_, ?_, ?_⟩
    · rw [List.mapM_cons, hedge, hms]
      rfl
    · intro m hm
      rcases List.mem_cons.1 hm with rfl | hm'
      · exact hlc0
      · exact hms0 m hm'
    · rw [List.foldl_cons, max_comm acc lc]
      exact hr

/-! ### `scorePose`: inversion and error lemmas -/

theorem transformFootprint_length (x y theta : ℝ) (fp : List Point) :
    (transformFootprint x y theta fp).length = fp.length := by
  simp [transformFootprint]

theorem unorientFootprint_length (rp : Pose2D) (fp : List Point) :
    (unorientFootprint rp fp).length = fp.length := by
  simp [unorientFootprint, transformFootprint]

set_option maxRecDepth 65536 in
/-- Inversion of a successful `scorePose` call: all collaborators delivered,
the pose converted, the edge loop and the closing edge succeeded, and the
result is the maximum of the closing-edge cost and the loop accumulator. -/
theorem scorePose_ok_inv (env : Env) (pose : Pose2D) (v : ℚ)
    (h : scorePose env pose = .ok v) :
    ∃ cm cell fp rp, env.costmap = some cm ∧
      cm.worldToMap pose.x pose.y = some cell ∧
      env.footprint = some fp ∧ env.robotPose = some rp ∧
      ∃ accL lcC pb pf a b,
        edgeLoopAux cm
          (transformFootprint pose.x pose.y pose.theta (unorientFootprint rp fp)) 0
          (((transformFootprint pose.x pose.y pose.theta
              (unorientFootprint rp fp)).length + (2 ^ 64 - 1)) % 2 ^ 64) 0
          = .ok accL ∧
        (transformFootprint pose.x pose.y pose.theta
          (unorientFootprint rp fp)).getLast? = some pb ∧
        (transformFootprint pose.x pose.y pose.theta
          (unorientFootprint rp fp)).head? = some pf ∧
        cm.worldToMap pb.x pb.y = some a ∧
        cm.worldToMap pf.x pf.y = some b ∧
        lineCost cm (a.1 : Int) (b.1 : Int) (a.2 : Int) (b.2 : Int) = .ok lcC ∧
        v = max lcC accL := by
  cases hc : env.costmap with
  | none =>
    rw [scorePose] at h
    rw [getCostmap, hc, getOr_none, error_bind] at h
    exact absurd h (by simp)
  | some cm =>
  rw [scorePose] at h
  rw [getCostmap, hc, getOr_some, ok_bind] at h
  cases hw : cm.worldToMap pose.x pose.y with
  | none =>
    rw [w2mXY_none cm pose.x pose.y _ hw, error_bind] at h
    exact absurd h (by simp)
  | some cell =>
  rw [w2mXY_some cm pose.x pose.y _ cell hw, ok_bind] at h
  cases hfp : env.footprint with
  | none =>
    rw [hfp, getOr_none, error_bind] at h
    exact absurd h (by simp)
  | some fp =>
  rw [hfp, getOr_some, ok_bind] at h
  cases hrp : env.robotPose with
  | none =>
    rw [hrp, getOr_none, error_bind] at h
    exact absurd h (by simp)
  | some rp =>
  rw [hrp, getOr_some, ok_bind] at h
  simp only [] at h
  refine ⟨cm, cell, fp, rp, rfl, hw, rfl, rfl, ?_⟩
  cases hloop : edgeLoopAux cm
      (transformFootprint pose.x pose.y pose.theta (unorientFootprint rp fp)) 0
      (((transformFootprint pose.x pose.y pose.theta
          (unorientFootprint rp fp)).length + (2 ^ 64 - 1)) % 2 ^ 64) 0 with
  | error e =>
    rw [hloop, error_bind] at h
    exact absurd h (by simp)
  | ok accL =>
  rw [hloop, ok_bind] at h
  cases hpb : (transformFootprint pose.x pose.y pose.theta
      (unorientFootprint rp fp)).getLast? with
  | none =>
    rw [hpb, getOr_none, error_bind] at h
    exact absurd h (by simp)
  | some pb =>
  rw [hpb, getOr_some, ok_bind] at h
  cases hpf : (transformFootprint pose.x pose.y pose.theta
      (unorientFootprint rp fp)).head? with
  | none =>
    rw [hpf, getOr_none, error_bind] at h
    exact absurd h (by simp)
  | some pf =>
  rw [hpf, getOr_some, ok_bind] at h
  cases hwb : cm.worldToMap pb.x pb.y with
  | none =>
    rw [w2mXY_none cm pb.x pb.y _ hwb, error_bind] at h
    exact absurd h (by simp)
  | some a =>
  rw [w2mXY_some cm pb.x pb.y _ a hwb, ok_bind] at h
  cases hwf : cm.worldToMap pf.x pf.y with
  | none =>
    rw [w2mXY_none cm pf.x pf.y _ hwf, error_bind] at h
    exact absurd h (by simp)
  | some b =>
  rw [w2mXY_some cm pf.x pf.y _ b hwf, ok_bind] at h
  cases hlc : lineCost cm (a.1 : Int) (b.1 : Int) (a.2 : Int) (b.2 : Int) with
  | error e =>
    rw [hlc, error_bind] at h
    exact absurd h (by simp)
  | ok lcC =>
  rw [hlc, ok_bind] at h
  have h' : (Except.ok (if lcC < accL then accL else lcC) : Except ScoreErr ℚ)
      = .ok v := h
  injection h' with h''
  refine ⟨accL, lcC, pb, pf, a, b, rfl, rfl, rfl, hwb, hwf, hlc, ?_⟩
  rw [← h'', if_lt_max]

/-- No costmap: `scorePose` raises the planner exception. -/
theorem scorePose_no_costmap (env : Env) (pose : Pose2D)
    (h : env.costmap = none) :
    scorePose env pose = .error (.plannerException "Costmap not available.") := by
  rw [scorePose, getCostmap, h, getOr_none, error_bind]

/-- Query pose off the grid: `scorePose` raises `IllegalTrajectoryException`
with the off-grid message. -/
theorem scorePose_pose_off_grid (env : Env) (pose : Pose2D) (cm : Costmap)
    (hc : env.costmap = some cm)
    (hw : cm.worldToMap pose.x pose.y = none) :
    scorePose env pose = .error (.illegalTrajectory "Trajectory Goes Off Grid.") := by
  rw [scorePose, getCostmap, hc, getOr_some, ok_bind,
    w2mXY_none cm pose.x pose.y _ hw, error_bind]

/-- No footprint: `scorePose` raises the planner exception. -/
theorem scorePose_no_footprint (env : Env) (pose : Pose2D) (cm : Costmap)
    (cell : Nat × Nat) (hc : env.costmap = some cm)
    (hw : cm.worldToMap pose.x pose.y = some cell)
    (hf : env.footprint = none) :
    scorePose env pose = .error (.plannerException "Footprint not available.") := by
  rw [scorePose, getCostmap, hc, getOr_some, ok_bind,
    w2mXY_some cm pose.x pose.y _ cell hw, ok_bind, hf, getOr_none, error_bind]

/-- Robot pose lookup failed: `scorePose` raises the planner exception. -/
theorem scorePose_no_robot_pose (env : Env) (pose : Pose2D) (cm : Costmap)
    (cell : Nat × Nat) (fp : List Point) (hc : env.costmap = some cm)
    (hw : cm.worldToMap pose.x pose.y = some cell)
    (hf : env.footprint = some fp) (hr : env.robotPose = none) :
    scorePose env pose = .error (.plannerException "Robot pose unavailable.") := by
  rw [scorePose, getCostmap, hc, getOr_some, ok_bind,
    w2mXY_some cm pose.x pose.y _ cell hw, ok_bind, hf, getOr_some, ok_bind,
    hr, getOr_none, error_bind]

set_option maxRecDepth 65536 in
/-- Classification of `scorePose` failures: a planner exception means a
missing collaborator, an illegal trajectory carries one of the five source
messages, and any other failure is the out-of-range model. -/
theorem scorePose_err_classify (env : Env) (pose : Pose2D) (e : ScoreErr)
    (h : scorePose env pose = .error e) :
    (∃ m, e = ScoreErr.plannerException m ∧
      (env.costmap = none ∨ env.footprint = none ∨ env.robotPose = none)) ∨
    (∃ m, e = ScoreErr.illegalTrajectory m ∧
      (m = "Trajectory Goes Off Grid." ∨ m = "Footprint Goes Off Grid at map." ∨
       m = "Footprint Goes Off Grid." ∨ m = "Trajectory Hits Obstacle." ∨
       m = "Trajectory Hits Unknown Region.")) ∨
    e = ScoreErr.fatal oobMsg := by
  cases hc : env.costmap with
  | none =>
    rw [scorePose_no_costmap env pose hc] at h
    injection h with h'
    exact Or.inl ⟨_, h'.symm, Or.inl rfl⟩
  | some cm =>
  rw [scorePose, getCostmap, hc, getOr_some, ok_bind] at h
  cases hw : cm.worldToMap pose.x pose.y with
  | none =>
    rw [w2mXY_none cm pose.x pose.y _ hw, error_bind] at h
    injection h with h'
    exact Or.inr (Or.inl ⟨_, h'.symm, Or.inl rfl⟩)
  | some cell =>
  rw [w2mXY_some cm pose.x pose.y _ cell hw, ok_bind] at h
  cases hfp : env.footprint with
  | none =>
    rw [hfp, getOr_none, error_bind] at h
    injection h with h'
    exact Or.inl ⟨_, h'.symm, Or.inr (Or.inl rfl)⟩
  | some fp =>
  rw [hfp, getOr_some, ok_bind] at h
  cases hrp : env.robotPose with
  | none =>
    rw [hrp, getOr_none, error_bind] at h
    injection h with h'
    exact Or.inl ⟨_, h'.symm, Or.inr (Or.inr rfl)⟩
  | some rp =>
  rw [hrp, getOr_some, ok_bind] at h
  simp only [] at h
  cases hloop : edgeLoopAux cm
      (transformFootprint pose.x pose.y pose.theta (unorientFootprint rp fp)) 0
      (((transformFootprint pose.x pose.y pose.theta
          (unorientFootprint rp fp)).length + (2 ^ 64 - 1)) % 2 ^ 64) 0 with
  | error e' =>
    rw [hloop, error_bind] at h
    injection h with h'
    rcases edgeLoopAux_err cm _ _ _ _ _ hloop with h2 | h2
    · exact Or.inr (Or.inr (h'.symm.trans h2))
    · rcases h2 with h3 | h3 | h3 | h3 <;>
        · rw [h3] at h'
          exact Or.inr (Or.inl ⟨_, h'.symm, by simp⟩)
  | ok accL =>
  rw [hloop, ok_bind] at h
  cases hpb : (transformFootprint pose.x pose.y pose.theta
      (unorientFootprint rp fp)).getLast? with
  | none =>
    rw [hpb, getOr_none, error_bind] at h
    injection h with h'
    exact Or.inr (Or.inr h'.symm)
  | some pb =>
  rw [hpb, getOr_some, ok_bind] at h
  cases hpf : (transformFootprint pose.x pose.y pose.theta
      (unorientFootprint rp fp)).head? with
  | none =>
    rw [hpf, getOr_none, error_bind] at h
    injection h with h'
    exact Or.inr (Or.inr h'.symm)
  | some pf =>
  rw [hpf, getOr_some, ok_bind] at h
  cases hwb : cm.worldToMap pb.x pb.y with
  | none =>
    rw [w2mXY_none cm pb.x pb.y _ hwb, error_bind] at h
    injection h with h'
    exact Or.inr (Or.inl ⟨_, h'.symm, by simp⟩)
  | some a =>
  rw [w2mXY_some cm pb.x pb.y _ a hwb, ok_bind] at h
  cases hwf : cm.worldToMap pf.x pf.y with
  | none =>
    rw [w2mXY_none cm pf.x pf.y _ hwf, error_bind] at h
    injection h with h'
    exact Or.inr (Or.inl ⟨_, h'.symm, by simp⟩)
  | some b =>
  rw [w2mXY_some cm pf.x pf.y _ b hwf, ok_bind] at h
  cases hlc : lineCost cm (a.1 : Int) (b.1 : Int) (a.2 : Int) (b.2 : Int) with
  | error e' =>
    rw [hlc, error_bind] at h
    injection h with h'
    rcases lineCost_err cm _ _ _ _ e' hlc with h2 | h2 <;>
      · rw [h2] at h'
        exact Or.inr (Or.inl ⟨_, h'.symm, by simp⟩)
  | ok lcC =>
  rw [hlc, ok_bind] at h
  have h2 : (Except.ok (if lcC < accL then accL else lcC) : Except ScoreErr ℚ)
      = .error e := h
  exact absurd h2 (by simp)

set_option maxRecDepth 65536 in
/-- The out-of-range failure occurs only with its fixed message and only for
an empty footprint. -/
theorem scorePose_fatal_inv (env : Env) (pose : Pose2D) (m : String)
    (h : scorePose env pose = .error (.fatal m)) :
    m = oobMsg ∧ env.footprint = some [] := by
  cases hc : env.costmap with
  | none =>
    rw [scorePose_no_costmap env pose hc] at h
    injection h with h'
    exact absurd h'.symm (by simp)
  | some cm =>
  rw [scorePose, getCostmap, hc, getOr_some, ok_bind] at h
  cases hw : cm.worldToMap pose.x pose.y with
  | none =>
    rw [w2mXY_none cm pose.x pose.y _ hw, error_bind] at h
    injection h with h'
    exact absurd h'.symm (by simp)
  | some cell =>
  rw [w2mXY_some cm pose.x pose.y _ cell hw, ok_bind] at h
  cases hfp : env.footprint with
  | none =>
    rw [hfp, getOr_none, error_bind] at h
    injection h with h'
    exact absurd h'.symm (by simp)
  | some fp =>
  rw [hfp, getOr_some, ok_bind] at h
  cases hrp : env.robotPose with
  | none =>
    rw [hrp, getOr_none, error_bind] at h
    injection h with h'
    exact absurd h'.symm (by simp)
  | some rp =>
  rw [hrp, getOr_some, ok_bind] at h
  simp only [] at h
  have hlen : (transformFootprint pose.x pose.y pose.theta
      (unorientFootprint rp fp)).length = fp.length := by
    rw [transformFootprint_length, unorientFootprint_length]
  rcases List.eq_nil_or_concat fp with rfl | hconc
  · -- empty footprint: the loop does fail with the out-of-range error
    refine ⟨?_, rfl⟩
    have hT : transformFootprint pose.x pose.y pose.theta
        (unorientFootprint rp []) = [] := by
      simp [transformFootprint, unorientFootprint]
    rw [hT] at h
    rw [edgeLoopAux_nil_fatal cm _ (by norm_num) 0 0, error_bind] at h
    injection h with h'
    simp only [ScoreErr.fatal.injEq] at h'
    exact h'.symm
  · -- nonempty footprint: no failure path produces the fatal error
    exfalso
    have hfpne : fp ≠ [] := by
      rcases hconc with ⟨l, a, rfl⟩
      simp
    have hTne : (transformFootprint pose.x pose.y pose.theta
        (unorientFootprint rp fp)).length ≠ 0 := by
      rw [hlen]
      simpa using hfpne
    cases hloop : edgeLoopAux cm
        (transformFootprint pose.x pose.y pose.theta (unorientFootprint rp fp)) 0
        (((transformFootprint pose.x pose.y pose.theta
            (unorientFootprint rp fp)).length + (2 ^ 64 - 1)) % 2 ^ 64) 0 with
    | error e' =>
      rw [hloop, error_bind] at h
      injection h with h'
      rcases edgeLoopAux_err cm _ _ _ _ _ hloop with h2 | h2
      · rw [h2] at hloop
        have hle := edgeLoopAux_fatal_le cm _ _ _ _ _ hloop
        have hlt := loopFuel_lt _ hTne
        omega
      · rcases h2 with h3 | h3 | h3 | h3 <;>
          · rw [h3] at h'
            exact absurd h'.symm (by simp)
    | ok accL =>
    rw [hloop, ok_bind] at h
    cases hpb : (transformFootprint pose.x pose.y pose.theta
        (unorientFootprint rp fp)).getLast? with
    | none =>
      exact hTne (by simpa using List.getLast?_eq_none_iff.1 hpb)
    | some pb =>
    rw [hpb, getOr_some, ok_bind] at h
    cases hpf : (transformFootprint pose.x pose.y pose.theta
        (unorientFootprint rp fp)).head? with
    | none =>
      exact hTne (by simpa using List.head?_eq_none_iff.1 hpf)
    | some pf =>
    rw [hpf, getOr_some, ok_bind] at h
    cases hwb : cm.worldToMap pb.x pb.y with
    | none =>
      rw [w2mXY_none cm pb.x pb.y _ hwb, error_bind] at h
      injection h with h'
      exact absurd h'.symm (by simp)
    | some a =>
    rw [w2mXY_some cm pb.x pb.y _ a hwb, ok_bind] at h
    cases hwf : cm.worldToMap pf.x pf.y with
    | none =>
      rw [w2mXY_none cm pf.x pf.y _ hwf, error_bind] at h
      injection h with h'
      exact absurd h'.symm (by simp)
    | some b =>
    rw [w2mXY_some cm pf.x pf.y _ b hwf, ok_bind] at h
    cases hlc : lineCost cm (a.1 : Int) (b.1 : Int) (a.2 : Int) (b.2 : Int) with
    | error e' =>
      rw [hlc, error_bind] at h
      injection h with h'
      rcases lineCost_err cm _ _ _ _ e' hlc with h2 | h2 <;>
        · rw [h2] at h'
          exact absurd h'.symm (by simp)
    | ok lcC =>
    rw [hlc, ok_bind] at h
    have h2 : (Except.ok (if lcC < accL then accL else lcC) : Except ScoreErr ℚ)
        = .error (.fatal m) := h
    exact absurd h2 (by simp)

/-- If `mapM` over `Option` succeeds on a list, it succeeds on every
element. -/
theorem mapM_some_of_mem {α β : Type} (f : α → Option β) :
    ∀ (l : List α) (bs : List β), l.mapM f = some bs →
    ∀ a ∈ l, ∃ b, f a = some b := by
  intro l
  induction l with
  | nil =>
    intro bs _ a ha
    exact absurd ha (by simp)
  | cons c l ih =>
    intro bs h a ha
    rw [List.mapM_cons] at h
    cases hfc : f c with
    | none =>
      rw [hfc] at h
      have h' : (none : Option (List β)) = some bs := h
      exact absurd h' (by simp)
    | some b0 =>
      rw [hfc] at h
      have h' : (l.mapM f >>= fun bs' => pure (b0 :: bs')) = some bs := h
      cases hrest : l.mapM f with
      | none =>
        rw [hrest] at h'
        have h'' : (none : Option (List β)) = some bs := h'
        exact absurd h'' (by simp)
      | some bs' =>
        rcases List.mem_cons.1 ha with rfl | ha'
        · exact ⟨b0, hfc⟩
        · exact ih bs' hrest a ha'

/-- A defined spec-side edge maximum needs both endpoint conversions to
succeed. -/
theorem specEdgeMax_some_w2m (cm : Costmap) (p q : Point) (m : ℚ)
    (h : specEdgeMax cm (p, q) = some m) :
    cm.worldToMap p.x p.y ≠ none ∧ cm.worldToMap q.x q.y ≠ none := by
  unfold specEdgeMax specEdgeCells at h
  cases hp : cm.worldToMap p.x p.y with
  | none =>
    rw [hp] at h
    exact absurd h (by simp)
  | some a =>
  rw [hp] at h
  cases hq : cm.worldToMap q.x q.y with
  | none =>
    rw [hq] at h
    exact absurd h (by simp)
  | some b =>
    exact ⟨by simp, by simp⟩

set_option maxRecDepth 65536 in
/-- Assembly of a successful `scorePose` run against the spec-side edge
maxima: the consecutive-pair edges all have defined nonnegative maxima `ms`,
the closing edge from the last vertex to the first has maximum `lcC`, and
the returned value is `max lcC (fold of ms)`. -/
theorem scorePose_ok_assemble (env : Env) (pose : Pose2D) (cm : Costmap)
    (fp : List Point) (rp : Pose2D) (v : ℚ)
    (hcm : env.costmap = some cm) (hfp : env.footprint = some fp)
    (hrp : env.robotPose = some rp) (hlen : fp.length < 2 ^ 64)
    (hok : scorePose env pose = .ok v) :
    ∃ ms lcC pb pf,
      ((transformFootprint pose.x pose.y pose.theta
          (unorientFootprint rp fp)).zip
        (transformFootprint pose.x pose.y pose.theta
          (unorientFootprint rp fp)).tail).mapM (specEdgeMax cm) = some ms ∧
      (∀ m ∈ ms, 0 ≤ m) ∧
      (transformFootprint pose.x pose.y pose.theta
        (unorientFootprint rp fp)).getLast? = some pb ∧
      (transformFootprint pose.x pose.y pose.theta
        (unorientFootprint rp fp)).head? = some pf ∧
      specEdgeMax cm (pb, pf) = some lcC ∧ 0 ≤ lcC ∧
      v = max lcC (ms.foldl max 0) := by
  obtain ⟨cm', cell, fp', rp', hc', hw', hf', hr', accL, lcC, pb, pf, a, b,
    hloop, hpb, hpf, hwb, hwf, hlc, hv⟩ := scorePose_ok_inv env pose v hok
  have ecm : cm = cm' := Option.some.inj (hcm.symm.trans hc')
  subst ecm
  have efp : fp = fp' := Option.some.inj (hfp.symm.trans hf')
  subst efp
  have erp : rp = rp' := Option.some.inj (hrp.symm.trans hr')
  subst erp
  set T := transformFootprint pose.x pose.y pose.theta (unorientFootprint rp fp)
    with hTdef
  have hlenT : T.length = fp.length := by
    rw [hTdef, transformFootprint_length, unorientFootprint_length]
  have hTne : T ≠ [] := by
    intro h0
    rw [h0] at hpb
    exact absurd hpb (by simp)
  have hn1 : 1 ≤ T.length := List.length_pos.2 hTne
  have hn2 : T.length < 2 ^ 64 := by
    rw [hlenT]
    exact hlen
  have hfuel : (T.length + (2 ^ 64 - 1)) % 2 ^ 64 = T.length - 1 :=
    loopFuel_eq _ hn1 hn2
  set es := T.zip T.tail with hes
  have hesl : es.length = T.length - 1 := by
    rw [hes, List.length_zip, List.length_tail]
    omega
  rw [hfuel, ← hesl] at hloop
  have hview : ∀ k, k < es.length → ∃ p q,
      T[0 + k]? = some p ∧ T[0 + k + 1]? = some q ∧ es[k]? = some (p, q) := by
    intro k hk
    have hk1 : k < T.length := by omega
    have hk2 : k + 1 < T.length := by omega
    refine ⟨T[k], T[k + 1], ?_, ?_, ?_⟩
    · simpa using List.getElem?_eq_getElem hk1
    · simpa using List.getElem?_eq_getElem hk2
    · rw [hes, List.getElem?_zip_eq_some]
      refine ⟨by simpa using List.getElem?_eq_getElem hk1, ?_⟩
      rw [List.getElem?_tail]
      simpa using List.getElem?_eq_getElem hk2
  obtain ⟨ms, hms, hms0, hacc⟩ :=
    edgeLoopAux_ok_spec cm T es 0 0 accL hview hloop
  obtain ⟨hcells, hqmaxC, hlcC0⟩ := lineCost_ok_inv cm _ _ _ _ lcC hlc
  have hedge : specEdgeMax cm (pb, pf) = some lcC := by
    unfold specEdgeMax specEdgeCells
    simp only [hwb, hwf, Option.some_bind]
    exact hqmaxC
  exact ⟨ms, lcC, pb, pf, hms, hms0, hpb, hpf, hedge, hlcC0, by rw [hv, hacc]⟩

/-! ### Claim theorems -/

/-- C7: `transformFootprint` (Project) rotates every vertex by the pose's
heading and then translates by the pose's position, while `unorientFootprint`
(De-orient) translates every vertex by the negated position and then rotates
by the negated heading — each operation applies its two steps in exactly this
order. -/
theorem transform_step_order (x y theta : ℝ) (fp : List Point) (rp : Pose2D) :
    transformFootprint x y theta fp =
      translateFootprint x y (rotateFootprint theta fp) ∧
    unorientFootprint rp fp =
      rotateFootprint (-rp.theta)
        (translateFootprint (-rp.x) (-rp.y) fp) := by
  constructor
  · simp only [transformFootprint, translateFootprint, rotateFootprint,
      List.map_map]
    refine List.map_congr_left ?_
    intro p _
    simp only [Function.comp_apply, Point.mk.injEq]
    constructor <;> ring
  · simp only [unorientFootprint, transformFootprint, translateFootprint,
      rotateFootprint, List.map_map]
    refine List.map_congr_left ?_
    intro p _
    simp only [Function.comp_apply, Point.mk.injEq, Real.cos_zero,
      Real.sin_zero]
    constructor <;> ring

/-- C5: De-orienting a footprint at a pose and then projecting it back with
the same pose is the identity on every vertex coordinate (round-trip law;
exact over the real-number model of coordinates). -/
theorem unorient_project_roundtrip (rp : Pose2D) (fp : List Point) :
    transformFootprint rp.x rp.y rp.theta (unorientFootprint rp fp) = fp := by
  simp only [unorientFootprint, transformFootprint, List.map_map]
  conv_rhs => rw [← List.map_id fp]
  refine List.map_congr_left ?_
  intro p _
  obtain ⟨px, py⟩ := p
  simp only [Function.comp_apply, Real.cos_zero, Real.sin_zero, Real.cos_neg,
    Real.sin_neg, id_eq, Point.mk.injEq]
  constructor
  · linear_combination (px - rp.x) * (Real.sin_sq_add_cos_sq rp.theta)
  · linear_combination (py - rp.y) * (Real.sin_sq_add_cos_sq rp.theta)

/-- C6 (counterexample): the rasterizer is not direction-symmetric.  Tracing
`(0,0) → (4,1)` visits cell `(2,1)`, while the reverse trace `(4,1) → (0,0)`
does not visit it (it visits `(2,0)` instead), so the two traces are neither
the same cell set nor reverses of each other. -/
theorem lineCells_reverse_counterexample :
    ((2, 1) ∈ lineCells 0 0 4 1 ∧ (2, 1) ∉ lineCells 4 1 0 0) ∧
    (lineCells 4 1 0 0).reverse ≠ lineCells 0 0 4 1 := by decide

/-- C6 (amended): in each single direction the rasterizer behaves as
specified — the trace starts at `(x0, y0)`, ends at `(x1, y1)`, visits every
cell exactly once (no duplicates), and both coordinates progress
monotonically from start to end for every slope; the direction-symmetry part
of the claim is dropped, as the reverse trace may visit a different cell
set. -/
theorem lineCells_endpoints_once_monotone (x0 y0 x1 y1 : Int) :
    (lineCells x0 y0 x1 y1).head? = some (x0, y0) ∧
    (lineCells x0 y0 x1 y1).getLast? = some (x1, y1) ∧
    (lineCells x0 y0 x1 y1).Nodup ∧
    List.Pairwise (fun a b =>
      (x0 ≤ x1 → a.1 ≤ b.1) ∧ (x1 ≤ x0 → b.1 ≤ a.1) ∧
      (y0 ≤ y1 → a.2 ≤ b.2) ∧ (y1 ≤ y0 → b.2 ≤ a.2))
      (lineCells x0 y0 x1 y1) :=
  lineCells_props x0 y0 x1 y1

/-- Helper: with all collaborators available and the pose on the grid, an
empty footprint drives the edge loop into the out-of-range failure (the C++
unsigned bound `footprint.size() - 1` wraps around). -/
theorem scorePose_empty_fatal (env : Env) (pose : Pose2D) (cm : Costmap)
    (cell : Nat × Nat) (rp : Pose2D)
    (hc : env.costmap = some cm)
    (hw : cm.worldToMap pose.x pose.y = some cell)
    (hf : env.footprint = some [])
    (hr : env.robotPose = some rp) :
    scorePose env pose = .error (.fatal oobMsg) := by
  rw [scorePose, getCostmap, hc, getOr_some, ok_bind,
    w2mXY_some cm pose.x pose.y _ cell hw, ok_bind, hf, getOr_some, ok_bind,
    hr, getOr_some, ok_bind]
  simp only []
  have hT : transformFootprint pose.x pose.y pose.theta
      (unorientFootprint rp []) = [] := by
    simp [transformFootprint, unorientFootprint]
  rw [hT, edgeLoopAux_nil_fatal cm _ (by norm_num) 0 0, error_bind]

/-- C9 (counterexample): a footprint with a single vertex — fewer than 2 —
does not make `scorePose` fail; the loop body is skipped and the degenerate
closing edge from the only vertex to itself is scored, returning 0 on a free
costmap. -/
theorem scorePose_one_vertex_scores :
    envFull.footprint = some [ptO] ∧ scorePose envFull pose0 = .ok 0 := by
  constructor
  · rfl
  · rfl

/-- C9 (amended): for the empty footprint (0 vertices), `scorePose` fails
with the non-recoverable out-of-range error, and `isCollisionFree` does not
catch it — the failure propagates unmodified.  (A 1-vertex footprint is
scored normally, per the counterexample.) -/
theorem scorePose_empty_footprint_fails (env : Env) (pose : Pose2D)
    (cm : Costmap) (cell : Nat × Nat) (rp : Pose2D)
    (hc : env.costmap = some cm)
    (hw : cm.worldToMap pose.x pose.y = some cell)
    (hf : env.footprint = some [])
    (hr : env.robotPose = some rp) :
    scorePose env pose = .error (.fatal oobMsg) ∧
    isCollisionFree env pose = .error (.fatal oobMsg) := by
  have h := scorePose_empty_fatal env pose cm cell rp hc hw hf hr
  refine ⟨h, ?_⟩
  rw [isCollisionFree, h]

/-- Witness for C9's amended theorem at a concrete environment. -/
theorem scorePose_empty_footprint_fails_witness :
    scorePose envEmptyFp pose0 = .error (.fatal oobMsg) ∧
    isCollisionFree envEmptyFp pose0 = .error (.fatal oobMsg) :=
  scorePose_empty_footprint_fails envEmptyFp pose0 cmZero (0, 0) pose0
    rfl rfl rfl rfl

/-- C10: the out-of-range branch of the edge loop is reachable exactly when
the footprint is empty: a nonempty footprint never produces the fatal
out-of-range failure, while an empty footprint (with the earlier pipeline
stages succeeding, so that the loop is reached) always does. -/
theorem scorePose_oob_iff_empty (env : Env) (pose : Pose2D) (fp : List Point)
    (hfp : env.footprint = some fp) :
    (fp ≠ [] → ∀ m, scorePose env pose ≠ .error (.fatal m)) ∧
    (fp = [] → ∀ (cm : Costmap) (cell : Nat × Nat) (rp : Pose2D),
      env.costmap = some cm → cm.worldToMap pose.x pose.y = some cell →
      env.robotPose = some rp →
      scorePose env pose = .error (.fatal oobMsg)) := by
  constructor
  · intro hne m hcontra
    obtain ⟨_, hnil⟩ := scorePose_fatal_inv env pose m hcontra
    rw [hfp] at hnil
    injection hnil with hnil'
    exact hne hnil'
  · intro hnil cm cell rp hc hw hr
    exact scorePose_empty_fatal env pose cm cell rp hc hw (hnil ▸ hfp) hr

/-- Witness for C10 at concrete environments: a one-vertex footprint never
hits the out-of-range branch; an empty one does. -/
theorem scorePose_oob_iff_empty_witness :
    (scorePose envFull pose0 ≠ .error (.fatal oobMsg)) ∧
    scorePose envEmptyFp pose0 = .error (.fatal oobMsg) :=
  ⟨(scorePose_oob_iff_empty envFull pose0 [ptO] rfl).1 (by simp) oobMsg,
   (scorePose_oob_iff_empty envEmptyFp pose0 [] rfl).2 rfl cmZero (0, 0) pose0
     rfl rfl rfl⟩

/-- C3: `isCollisionFree` returns `true` exactly when `scorePose` returns
normally with a value at least 0; the two recoverable error kinds are caught
and converted to `false`; any other failure propagates out of
`isCollisionFree` unmodified. -/
theorem isCollisionFree_spec (env : Env) (pose : Pose2D) :
    (isCollisionFree env pose = .ok true ↔
      ∃ v, scorePose env pose = .ok v ∧ 0 ≤ v) ∧
    (∀ m, scorePose env pose = .error (.illegalTrajectory m) →
      isCollisionFree env pose = .ok false) ∧
    (∀ m, scorePose env pose = .error (.plannerException m) →
      isCollisionFree env pose = .ok false) ∧
    (∀ m, scorePose env pose = .error (.fatal m) →
      isCollisionFree env pose = .error (.fatal m)) := by
  cases hs : scorePose env pose with
  | ok v =>
    refine ⟨?_, ?_, ?_, ?_⟩
    · simp only [isCollisionFree, hs]
      by_cases hv : v < 0
      · rw [if_pos hv]
        constructor
        · intro h
          exact absurd h (by simp)
        · rintro ⟨v', hv', h0⟩
          exfalso
          injection hv' with he
          rw [he] at hv
          linarith
      · rw [if_neg hv]
        exact ⟨fun _ => ⟨v, rfl, not_lt.1 hv⟩, fun _ => rfl⟩
    · intro m hm
      exact absurd hm (by simp)
    · intro m hm
      exact absurd hm (by simp)
    · intro m hm
      exact absurd hm (by simp)
  | error e =>
    cases e with
    | illegalTrajectory m =>
      refine ⟨by simp [isCollisionFree, hs], ?_, ?_, ?_⟩
      · intro m' _
        simp [isCollisionFree, hs]
      · intro m' hm
        exact absurd hm (by simp)
      · intro m' hm
        exact absurd hm (by simp)
    | plannerException m =>
      refine ⟨by simp [isCollisionFree, hs], ?_, ?_, ?_⟩
      · intro m' hm
        exact absurd hm (by simp)
      · intro m' _
        simp [isCollisionFree, hs]
      · intro m' hm
        exact absurd hm (by simp)
    | fatal m =>
      refine ⟨by simp [isCollisionFree, hs], ?_, ?_, ?_⟩
      · intro m' hm
        exact absurd hm (by simp)
      · intro m' hm
        exact absurd hm (by simp)
      · intro m' hm
        injection hm with hm'
        injection hm' with hm''
        rw [← hm'']
        simp [isCollisionFree, hs]

/-- Witness for C3 at concrete environments: an all-lethal costmap gives
`false` via a caught illegal-trajectory error, and a free costmap gives
`true` via a normal nonnegative score. -/
theorem isCollisionFree_spec_witness :
    isCollisionFree envLethal pose0 = .ok false ∧
    isCollisionFree envFull pose0 = .ok true :=
  ⟨(isCollisionFree_spec envLethal pose0).2.1 "Trajectory Hits Obstacle." rfl,
   (isCollisionFree_spec envFull pose0).1.2 ⟨0, rfl, le_refl 0⟩⟩

/-- C8: a normal return of `scorePose` is a nonnegative value, and on such a
return the negative-score branch of `isCollisionFree` is unreachable — the
call returns `true`. -/
theorem scorePose_ok_nonneg (env : Env) (pose : Pose2D) (v : ℚ)
    (h : scorePose env pose = .ok v) :
    0 ≤ v ∧ isCollisionFree env pose = .ok true := by
  obtain ⟨cm, cell, fp, rp, _, _, _, _, accL, lcC, pb, pf, a, b,
    hloop, _, _, _, _, hlc, hv⟩ := scorePose_ok_inv env pose v h
  have h1 : (0 : ℚ) ≤ accL := edgeLoopAux_ok_ge cm _ _ 0 0 accL hloop
  have h0 : 0 ≤ v := by
    rw [hv]
    exact le_trans h1 (le_max_right lcC accL)
  refine ⟨h0, ?_⟩
  simp only [isCollisionFree, h]
  rw [if_neg (not_lt.2 h0)]

set_option maxRecDepth 65536 in
/-- Witness for C8 at a concrete environment. -/
theorem scorePose_ok_nonneg_witness :
    (0 : ℚ) ≤ 0 ∧ isCollisionFree envFull pose0 = .ok true :=
  scorePose_ok_nonneg envFull pose0 0 (by rfl)

set_option maxRecDepth 65536 in
/-- C2: `pointCost` aborts with the dedicated illegal-trajectory error on
each of the two sentinels (so any visited sentinel cell aborts the enclosing
`scorePose` call through the error monad), and under the `unsigned char`
cost range a normal `scorePose` return is at most 253 — strictly below both
sentinels, which are therefore never folded into the returned maximum. -/
theorem pointCost_sentinel_abort (cm : Costmap) (x y : Int) :
    (cm.getCost x y = LETHAL_OBSTACLE →
      pointCost cm x y = .error (.illegalTrajectory "Trajectory Hits Obstacle.")) ∧
    (cm.getCost x y = NO_INFORMATION →
      pointCost cm x y = .error (.illegalTrajectory "Trajectory Hits Unknown Region.")) ∧
    (∀ (env : Env) (pose : Pose2D) (v : ℚ), env.costmap = some cm →
      (∀ a b : Int, cm.getCost a b < 256) →
      scorePose env pose = .ok v → v ≤ 253) := by
  refine ⟨pointCost_lethal cm x y, pointCost_noinfo cm x y, ?_⟩
  intro env pose v hcm hbound hok
  obtain ⟨cm', cell, fp, rp, hc', _, _, _, accL, lcC, pb, pf, a, b,
    hloop, _, _, _, _, hlc, hv⟩ := scorePose_ok_inv env pose v hok
  have hc'' : cm = cm' := Option.some.inj (hcm.symm.trans hc')
  subst hc''
  have h1 : accL ≤ 253 :=
    edgeLoopAux_ok_le cm _ hbound _ 0 0 accL (by norm_num) hloop
  have h2 : lcC ≤ 253 := lineCost_ok_lt cm _ _ _ _ lcC hbound hlc
  rw [hv]
  exact max_le h2 h1

/-- Witness for C2 at concrete inputs: the all-lethal and all-unknown
costmaps abort, and a normal score on the free costmap is at most 253. -/
theorem pointCost_sentinel_abort_witness :
    pointCost cmLethal 0 0 = .error (.illegalTrajectory "Trajectory Hits Obstacle.") ∧
    pointCost cmNoInfo 0 0 = .error (.illegalTrajectory "Trajectory Hits Unknown Region.") ∧
    (0 : ℚ) ≤ 253 :=
  ⟨(pointCost_sentinel_abort cmLethal 0 0).1 rfl,
   (pointCost_sentinel_abort cmNoInfo 0 0).2.1 rfl,
   (pointCost_sentinel_abort cmZero 0 0).2.2 envFull pose0 0 rfl
     (fun _ _ => by simp [cmZero]) rfl⟩

/-- C1: whenever `scorePose` returns normally, the returned value is the
spec-side boundary maximum of the footprint projected to the query pose: the
maximum over all boundary edges (consecutive-vertex edges plus the closing
edge from the last vertex to the first) of the maximum point cost over the
grid cells visited when rasterizing that edge.  (`fp.length < 2 ^ 64`
reflects the C++ `size_t` bound on `std::vector::size`.) -/
theorem scorePose_ok_boundary_max (env : Env) (pose : Pose2D) (cm : Costmap)
    (fp : List Point) (rp : Pose2D) (v : ℚ)
    (hcm : env.costmap = some cm) (hfp : env.footprint = some fp)
    (hrp : env.robotPose = some rp) (hlen : fp.length < 2 ^ 64)
    (hok : scorePose env pose = .ok v) :
    specBoundaryMax cm (transformFootprint pose.x pose.y pose.theta
      (unorientFootprint rp fp)) = some v := by
  obtain ⟨ms, lcC, pb, pf, hms, hms0, hpb, hpf, hedge, hlc0, hv⟩ :=
    scorePose_ok_assemble env pose cm fp rp v hcm hfp hrp hlen hok
  set T := transformFootprint pose.x pose.y pose.theta (unorientFootprint rp fp)
    with hTdef
  have hbe : boundaryEdges T = T.zip T.tail ++ [(pb, pf)] := by
    rw [boundaryEdges, hpb, hpf]
  have hmsA : (boundaryEdges T).mapM (specEdgeMax cm) = some (ms ++ [lcC]) := by
    rw [hbe, List.mapM_append, hms]
    have h1 : [(pb, pf)].mapM (specEdgeMax cm) = some [lcC] := by
      rw [List.mapM_cons, hedge]
      rfl
    rw [h1]
    rfl
  have h2 : specBoundaryMax cm T = qmax (ms ++ [lcC]) := by
    rw [specBoundaryMax, hmsA]
    rfl
  rw [h2, qmax_append_singleton ms lcC hms0 hlc0, hv]

set_option maxRecDepth 65536 in
/-- Witness for C1 at a concrete environment. -/
theorem scorePose_ok_boundary_max_witness :
    specBoundaryMax cmZero (transformFootprint pose0.x pose0.y pose0.theta
      (unorientFootprint pose0 [ptO])) = some 0 :=
  scorePose_ok_boundary_max envFull pose0 cmZero [ptO] pose0 0
    rfl rfl rfl (by norm_num) (by rfl)

/-- Helper: on a normal return every vertex of the projected footprint has a
successful world-to-grid conversion. -/
theorem scorePose_ok_vertex_w2m (env : Env) (pose : Pose2D) (cm : Costmap)
    (fp : List Point) (rp : Pose2D) (v : ℚ)
    (hcm : env.costmap = some cm) (hfp : env.footprint = some fp)
    (hrp : env.robotPose = some rp) (hlen : fp.length < 2 ^ 64)
    (hok : scorePose env pose = .ok v) :
    ∀ p ∈ transformFootprint pose.x pose.y pose.theta (unorientFootprint rp fp),
      cm.worldToMap p.x p.y ≠ none := by
  obtain ⟨ms, lcC, pb, pf, hms, hms0, hpb, hpf, hedge, hlc0, hv⟩ :=
    scorePose_ok_assemble env pose cm fp rp v hcm hfp hrp hlen hok
  set T := transformFootprint pose.x pose.y pose.theta (unorientFootprint rp fp)
    with hTdef
  intro p hp
  obtain ⟨k, hk, hTk⟩ := List.getElem_of_mem hp
  by_cases hlast : k = T.length - 1
  · have hpb' : pb = p := by
      rw [List.getLast?_eq_getElem?] at hpb
      rw [← hlast, List.getElem?_eq_getElem hk, hTk] at hpb
      exact (Option.some.inj hpb).symm
    rw [← hpb']
    exact (specEdgeMax_some_w2m cm pb pf lcC hedge).1
  · have hk2 : k + 1 < T.length := by omega
    have hmem : (T[k], T[k + 1]) ∈ T.zip T.tail := by
      have hkz : (T.zip T.tail)[k]? = some (T[k], T[k + 1]) := by
        rw [List.getElem?_zip_eq_some]
        refine ⟨by simpa using List.getElem?_eq_getElem hk, ?_⟩
        rw [List.getElem?_tail]
        simpa using List.getElem?_eq_getElem hk2
      exact List.getElem?_mem hkz
    obtain ⟨m, hm⟩ := mapM_some_of_mem (specEdgeMax cm) _ ms hms _ hmem
    have hres := (specEdgeMax_some_w2m cm T[k] (T[k + 1]) m hm).1
    rw [hTk] at hres
    exact hres

set_option maxRecDepth 65536 in
/-- C4: the recoverable failures of `scorePose` are exactly the stated ones.
A planner exception occurs only when a collaborator is missing, and each
missing collaborator produces its planner exception; a pose or footprint
vertex outside the grid produces an illegal-trajectory failure; and every
illegal-trajectory failure carries one of the five source messages (pose off
grid, footprint off grid at either endpoint, lethal cell, unknown cell). -/
theorem scorePose_error_taxonomy (env : Env) (pose : Pose2D) :
    (∀ m, scorePose env pose = .error (.plannerException m) →
      env.costmap = none ∨ env.footprint = none ∨ env.robotPose = none) ∧
    (env.costmap = none →
      scorePose env pose = .error (.plannerException "Costmap not available.")) ∧
    (∀ cm, env.costmap = some cm → cm.worldToMap pose.x pose.y = none →
      scorePose env pose = .error (.illegalTrajectory "Trajectory Goes Off Grid.")) ∧
    (∀ cm cell, env.costmap = some cm →
      cm.worldToMap pose.x pose.y = some cell → env.footprint = none →
      scorePose env pose = .error (.plannerException "Footprint not available.")) ∧
    (∀ cm cell fp, env.costmap = some cm →
      cm.worldToMap pose.x pose.y = some cell → env.footprint = some fp →
      env.robotPose = none →
      scorePose env pose = .error (.plannerException "Robot pose unavailable.")) ∧
    (∀ m, scorePose env pose = .error (.illegalTrajectory m) →
      (m = "Trajectory Goes Off Grid." ∨ m = "Footprint Goes Off Grid at map." ∨
       m = "Footprint Goes Off Grid." ∨ m = "Trajectory Hits Obstacle." ∨
       m = "Trajectory Hits Unknown Region.")) ∧
    (∀ cm cell fp rp, env.costmap = some cm →
      cm.worldToMap pose.x pose.y = some cell → env.footprint = some fp →
      env.robotPose = some rp → fp.length < 2 ^ 64 →
      (∃ p ∈ transformFootprint pose.x pose.y pose.theta
          (unorientFootprint rp fp), cm.worldToMap p.x p.y = none) →
      ∃ m, scorePose env pose = .error (.illegalTrajectory m)) := by
  refine ⟨?_, scorePose_no_costmap env pose, ?_, ?_, ?_, ?_, ?_⟩
  · intro m hm
    rcases scorePose_err_classify env pose _ hm with ⟨m', _, hcond⟩ |
      ⟨m', he, _⟩ | he
    · exact hcond
    · exact absurd he (by simp)
    · exact absurd he (by simp)
  · intro cm hc hw
    exact scorePose_pose_off_grid env pose cm hc hw
  · intro cm cell hc hw hf
    exact scorePose_no_footprint env pose cm cell hc hw hf
  · intro cm cell fp hc hw hf hr
    exact scorePose_no_robot_pose env pose cm cell fp hc hw hf hr
  · intro m hm
    rcases scorePose_err_classify env pose _ hm with ⟨m', he, _⟩ |
      ⟨m', he, hlist⟩ | he
    · exact absurd he (by simp)
    · injection he with he'
      rw [he']
      exact hlist
    · exact absurd he (by simp)
  · intro cm cell fp rp hc hw hf hr hlen hex
    obtain ⟨p, hpmem, hpnone⟩ := hex
    cases hs : scorePose env pose with
    | ok v =>
      exact absurd hpnone
        (scorePose_ok_vertex_w2m env pose cm fp rp v hc hf hr hlen hs p hpmem)
    | error e =>
      rcases scorePose_err_classify env pose e hs with ⟨m', he, hcond⟩ |
        ⟨m', he, _⟩ | he
      · exfalso
        rcases hcond with h0 | h0 | h0
        · rw [hc] at h0; exact absurd h0 (by simp)
        · rw [hf] at h0; exact absurd h0 (by simp)
        · rw [hr] at h0; exact absurd h0 (by simp)
      · exact ⟨m', by rw [he]⟩
      · exfalso
        rw [he] at hs
        obtain ⟨_, hnil⟩ := scorePose_fatal_inv env pose _ hs
        rw [hf] at hnil
        injection hnil with hnil'
        rw [hnil'] at hpmem
        have : transformFootprint pose.x pose.y pose.theta
            (unorientFootprint rp []) = [] := by
          simp [transformFootprint, unorientFootprint]
        rw [this] at hpmem
        exact absurd hpmem (by simp)

/-- Witness for C4 at concrete environments: each missing collaborator and
the off-grid pose produce their stated errors. -/
theorem scorePose_error_taxonomy_witness :
    scorePose envNoCm pose0 = .error (.plannerException "Costmap not available.") ∧
    scorePose envOffGrid pose0 = .error (.illegalTrajectory "Trajectory Goes Off Grid.") ∧
    scorePose envNoFp pose0 = .error (.plannerException "Footprint not available.") ∧
    scorePose envNoRp pose0 = .error (.plannerException "Robot pose unavailable.") :=
  ⟨(scorePose_error_taxonomy envNoCm pose0).2.1 rfl,
   (scorePose_error_taxonomy envOffGrid pose0).2.2.1 cmOffGrid rfl rfl,
   (scorePose_error_taxonomy envNoFp pose0).2.2.2.1 cmZero (0, 0) rfl rfl rfl,
   (scorePose_error_taxonomy envNoRp pose0).2.2.2.2.1 cmZero (0, 0) [ptO]
     rfl rfl rfl rfl⟩

end DwbCollision
